import Mathlib

/-!
Shallow embedding of the acd_cli metadata-cache core (`acdcli/cache/sync.py`
and `acdcli/cache/schema.py`), with proofs about its synchronization and
schema-migration behaviour.

Modelling conventions:
* SQLite tables are association lists of row structures.  `INSERT OR
  REPLACE` updates the row with the same primary key in place (appending
  when the key is new), `INSERT OR IGNORE` inserts only when the row is
  absent, and `DELETE ... WHERE` is `List.filter`.
* The two in-memory resolve-cache dicts (`path_to_node_id_cache` and
  `node_id_to_node_cache`) are association lists with the Python-dict
  update discipline: assignment replaces the value in place when the key
  exists and appends otherwise; `del` removes the pair.
* `datetime.utcnow()` is an explicit `now : Nat` argument threaded through
  each operation (one clock reading per call).
* `dateutil.parser.parse` (an external library) is modelled as the
  identity on the raw ISO8601 string; no claim depends on calendar
  arithmetic, only on equality of the stored values.
* The `logging` calls are modelled by `warnings`/`infos` lists carried in
  the state; `mod_cursor` transaction plumbing (from `cursors.py`) is
  modelled as direct sequential state update.
-/

/-- A raw remote node description as handed to the Sync Engine: a mapping
with id, kind, status, optional name/description, ISO8601 date strings,
parent ids, optional content properties (`md5`, `size`, `version`,
flattened here into three optional fields), optional properties
(owner → key → value) and an optional root marker. -/
structure RawNode where
  id : String
  kind : String
  status : String
  name : Option String
  description : Option String
  createdDate : String
  modifiedDate : String
  parents : List String
  contentMd5 : Option String
  contentSize : Option Nat
  contentVersion : Option Nat
  props : List (String × List (String × String))
  isRoot : Bool
deriving DecidableEq

/-- Modelled from the spec: the `Node` construction contract of
`acdcli.cache.query` (that module is not among the synchronization
sources).  Per the specification it accepts the attribute set built by
`insert_folders`/`insert_files` and exposes the id, a status-derived
availability flag, and the raw attributes. -/
structure Node where
  id : String
  type : String
  name : Option String
  description : Option String
  created : String
  modified : String
  updated : Nat
  status : String
  md5 : Option String
  size : Nat
  version : Nat
deriving DecidableEq

/-- Modelled from the spec: the status-derived availability flag of a
constructed `Node` (a node is available exactly when its status is
`AVAILABLE`). -/
def Node.is_available (n : Node) : Bool := n.status == "AVAILABLE"

/-- Row of the `nodes` table. -/
structure NodeRow where
  id : String
  type : String
  name : Option String
  description : Option String
  created : String
  modified : String
  updated : Nat
  status : String
deriving DecidableEq

/-- Row of the `files` table. -/
structure FileRow where
  id : String
  md5 : Option String
  size : Nat
  version : Nat
deriving DecidableEq

/-- Row of the `properties` table (primary key `(id, owner, key)`). -/
structure PropRow where
  id : String
  owner : String
  key : String
  value : String
deriving DecidableEq

/-- Row of the `content` table. -/
structure ContentRow where
  id : String
  value : List Nat
  size : Nat
  version : Nat
  accessed : Nat
deriving DecidableEq

/-- The persistent store plus the in-memory Resolve Cache and the log
streams: the state acted on by `SyncMixin`. -/
structure CacheState where
  nodes : List NodeRow
  files : List FileRow
  parentage : List (String × String)
  properties : List PropRow
  content : List ContentRow
  labels : List (String × String)
  pathToNodeId : List (String × String)
  nodeIdToNode : List (String × Node)
  warnings : List String
  infos : List String
deriving DecidableEq

/-- `dateutil.parser.parse`, modelled as the identity on the raw string
(see the module conventions above). -/
def iso_parse (s : String) : String := s

/-- Association-list lookup with the first-match rule of a Python dict /
SQL primary-key lookup. -/
def dictGet {β : Type} (c : List (String × β)) (k : String) : Option β :=
  match c with
  | [] => none
  | (k', v) :: t => if k' = k then some v else dictGet t k

/-- `INSERT OR REPLACE` by primary key / Python dict assignment: replace
the row with the same key in place, append when the key is new. -/
def upsertBy {α κ : Type} [DecidableEq κ] (key : α → κ) (t : List α) (r : α) : List α :=
  if ∃ x ∈ t, key x = key r then
    t.map (fun x => if key x = key r then r else x)
  else t ++ [r]

/-- Repeated `INSERT OR REPLACE` of a list of rows. -/
def upsertAll {α κ : Type} [DecidableEq κ] (key : α → κ) (t : List α) (rs : List α) : List α :=
  rs.foldl (upsertBy key) t

/-- `gen_slice` (sync.py): cut a list into successive chunks of at most
`n` elements (chunk size 100 at every call site); with `n = 0` the first
slice is empty and the generator stops at once. -/
def gen_slice {α : Type} : List α → Nat → List (List α)
  | [], _ => []
  | _ :: _, 0 => []
  | a :: as, m + 1 => (a :: as).take (m + 1) :: gen_slice ((a :: as).drop (m + 1)) (m + 1)
termination_by l _ => l.length
decreasing_by
  simp only [List.drop_succ_cons, List.length_drop, List.length_cons]
  omega

/-- One chunk of `SyncMixin.remove_purged`: the seven `DELETE` statements
issued for a single slice of purged ids. -/
def remove_purged_slice (s : CacheState) (sl : List String) : CacheState :=
  { s with
    nodes := s.nodes.filter (fun r => !(decide (r.id ∈ sl)))
    files := s.files.filter (fun r => !(decide (r.id ∈ sl)))
    content := s.content.filter (fun r => !(decide (r.id ∈ sl)))
    parentage := (s.parentage.filter (fun e => !(decide (e.1 ∈ sl)))).filter
      (fun e => !(decide (e.2 ∈ sl)))
    properties := s.properties.filter (fun r => !(decide (r.id ∈ sl)))
    labels := s.labels.filter (fun e => !(decide (e.1 ∈ sl))) }

/-- `SyncMixin.remove_purged`: delete every row referencing a purged id,
in chunks of 100. -/
def remove_purged (s : CacheState) (purged : List String) : CacheState :=
  if purged = [] then s
  else
    let s' := (gen_slice purged 100).foldl remove_purged_slice s
    { s' with infos := s'.infos ++ ["Purged " ++ toString purged.length ++ " node(s)."] }

/-- The folder `Node` constructed by `insert_folders` (file attributes
zeroed, `updated` stamped with the current clock). -/
def mkFolderNode (now : Nat) (f : RawNode) : Node :=
  { id := f.id
    type := "folder"
    name := f.name
    description := f.description
    created := iso_parse f.createdDate
    modified := iso_parse f.modifiedDate
    updated := now
    status := f.status
    md5 := none
    size := 0
    version := 0 }

/-- The file `Node` constructed by `insert_files` (content properties
defaulted: empty-payload md5, size 0, version 0). -/
def mkFileNode (now : Nat) (f : RawNode) : Node :=
  { id := f.id
    type := "file"
    name := f.name
    description := f.description
    created := iso_parse f.createdDate
    modified := iso_parse f.modifiedDate
    updated := now
    status := f.status
    md5 := some (f.contentMd5.getD "d41d8cd98f00b204e9800998ecf8427e")
    size := f.contentSize.getD 0
    version := f.contentVersion.getD 0 }

/-- The `nodes`-table row written for a constructed `Node`. -/
def nodeRow (n : Node) : NodeRow :=
  { id := n.id, type := n.type, name := n.name, description := n.description
    created := n.created, modified := n.modified, updated := n.updated, status := n.status }

/-- The `files`-table row written for a constructed file `Node`. -/
def fileRow (n : Node) : FileRow :=
  { id := n.id, md5 := n.md5, size := n.size, version := n.version }

/-- The resolve-cache maintenance done for one constructed node: set the
id→Node entry when the node is available, else delete it. -/
def cacheApply (c : List (String × Node)) (n : Node) : List (String × Node) :=
  if n.is_available then upsertBy Prod.fst c (n.id, n)
  else c.filter (fun e => !(decide (e.1 = n.id)))

/-- `SyncMixin.remove_content`: delete the content row of one node. -/
def remove_content (s : CacheState) (node_id : String) : CacheState :=
  { s with content := s.content.filter (fun r => !(decide (r.id = node_id))) }

/-- Loop body of `SyncMixin.insert_folders` for one raw folder. -/
def folder_step (now : Nat) (s : CacheState) (f : RawNode) : CacheState :=
  let n := mkFolderNode now f
  let s1 := { s with nodeIdToNode := cacheApply s.nodeIdToNode n }
  { s1 with nodes := upsertBy NodeRow.id s1.nodes (nodeRow n) }

/-- `SyncMixin.insert_folders`. -/
def insert_folders (now : Nat) (s : CacheState) (folders : List RawNode) : CacheState :=
  if folders = [] then s
  else
    let s1 := folders.foldl (folder_step now) s
    { s1 with infos := s1.infos ++
        ["Inserted/updated " ++ toString folders.length ++ " folder(s)."] }

/-- Loop body of `SyncMixin.insert_files` for one raw file: cache
maintenance, content invalidation when not available, then the two
upserts. -/
def file_step (now : Nat) (s : CacheState) (f : RawNode) : CacheState :=
  let n := mkFileNode now f
  let s1 := { s with nodeIdToNode := cacheApply s.nodeIdToNode n }
  let s2 := if n.is_available then s1 else remove_content s1 n.id
  let s3 := { s2 with nodes := upsertBy NodeRow.id s2.nodes (nodeRow n) }
  { s3 with files := upsertBy FileRow.id s3.files (fileRow n) }

/-- `SyncMixin.insert_files`. -/
def insert_files (now : Nat) (s : CacheState) (files : List RawNode) : CacheState :=
  if files = [] then s
  else
    let s1 := files.foldl (file_step now) s
    { s1 with infos := s1.infos ++
        ["Inserted/updated " ++ toString files.length ++ " file(s)."] }

/-- `INSERT OR IGNORE INTO parentage`: the nested loop of
`insert_parentage` inserting each declared `(parent, child)` edge when it
is not already present. -/
def ins_edges (t : List (String × String)) (ns : List RawNode) : List (String × String) :=
  ns.foldl (fun t n =>
    n.parents.foldl (fun t p => if (p, n.id) ∈ t then t else t ++ [(p, n.id)]) t) t

/-- The chunked delete phase of `insert_parentage` with `partial` set:
for every slice of the batch, delete all edges whose child is in the
slice. -/
def del_child_edges (t : List (String × String)) (ns : List RawNode) : List (String × String) :=
  (gen_slice ns 100).foldl
    (fun t sl => t.filter (fun e => !(decide (e.2 ∈ sl.map RawNode.id)))) t

/-- `SyncMixin.insert_parentage` (the `partial` argument of the source is
named `partFlag` here: `partial` is reserved). -/
def insert_parentage (s : CacheState) (ns : List RawNode) (partFlag : Bool) : CacheState :=
  if ns = [] then s
  else
    let t0 := if partFlag then del_child_edges s.parentage ns else s.parentage
    { s with parentage := ins_edges t0 ns
             infos := s.infos ++ ["Parented " ++ toString ns.length ++ " node(s)."] }

/-- The `properties` rows contributed by one raw node
(owner → key → value, flattened in iteration order). -/
def prop_rows (n : RawNode) : List PropRow :=
  n.props.flatMap (fun ow => ow.2.map (fun kv =>
    { id := n.id, owner := ow.1, key := kv.1, value := kv.2 }))

/-- The primary key of a `properties` row. -/
def propKey (p : PropRow) : String × String × String := (p.id, p.owner, p.key)

/-- `SyncMixin.insert_properties`: upsert every `(id, owner, key)` triple
of every node of the batch, overwriting prior values. -/
def insert_properties (s : CacheState) (ns : List RawNode) : CacheState :=
  if ns = [] then s
  else
    { s with properties := upsertAll propKey s.properties (ns.flatMap prop_rows)
             infos := s.infos ++
               ["Applied properties to " ++ toString ns.length ++ " node(s)."] }

/-- Whether a raw node's name is missing or empty (Python falsiness of
`node.get('name')`). -/
def nameEmpty (f : RawNode) : Bool :=
  match f.name with
  | none => true
  | some s => s.isEmpty

/-- The warning logged for a file without a usable name. -/
def emptyFileNameWarning (n : RawNode) : String :=
  "Skipping file " ++ n.id ++ " because its name is empty."

/-- The warning logged for a non-root folder without a usable name. -/
def emptyFolderNameWarning (n : RawNode) : String :=
  "Skipping non-root folder " ++ n.id ++ " because its name is empty."

/-- The warning logged for an unknown node kind. -/
def unknownKindWarning (n : RawNode) : String :=
  "Cannot insert unknown node type \"" ++ n.kind ++ "\"."

/-- The classification loop of `insert_nodes`: returns the accepted files,
the accepted folders, and the warnings, each in batch order.  `PENDING`
nodes are dropped silently, unnamed files and unnamed non-root folders are
dropped with a warning, `ASSET` nodes are dropped silently, and any other
unknown kind is dropped with a warning. -/
def classify : List RawNode → List RawNode × List RawNode × List String
  | [] => ([], [], [])
  | node :: rest =>
    let r := classify rest
    if node.status == "PENDING" then r
    else if node.kind == "FILE" then
      if nameEmpty node then (r.1, r.2.1, emptyFileNameWarning node :: r.2.2)
      else (node :: r.1, r.2.1, r.2.2)
    else if node.kind == "FOLDER" then
      if nameEmpty node && !node.isRoot then (r.1, r.2.1, emptyFolderNameWarning node :: r.2.2)
      else (r.1, node :: r.2.1, r.2.2)
    else if node.kind == "ASSET" then r
    else (r.1, r.2.1, unknownKindWarning node :: r.2.2)

/-- `SyncMixin.insert_nodes`: flush the path→id cache when requested,
classify the batch, then insert folders, files, parentage and properties
in that order. -/
def insert_nodes (now : Nat) (s : CacheState) (batch : List RawNode)
    (partFlag : Bool) (flush_resolve_cache : Bool) : CacheState :=
  let s0 := if flush_resolve_cache then { s with pathToNodeId := [] } else s
  let cl := classify batch
  let s1 := { s0 with warnings := s0.warnings ++ cl.2.2 }
  let s2 := insert_folders now s1 cl.2.1
  let s3 := insert_files now s2 cl.1
  let s4 := insert_parentage s3 (cl.1 ++ cl.2.1) partFlag
  insert_properties s4 (cl.1 ++ cl.2.1)

/-- Whether any persisted row references the given id (nodes, files,
content, parentage as parent or as child, properties, labels). -/
def referencesId (s : CacheState) (i : String) : Prop :=
  (∃ r ∈ s.nodes, r.id = i) ∨ (∃ r ∈ s.files, r.id = i) ∨
  (∃ r ∈ s.content, r.id = i) ∨ (∃ e ∈ s.parentage, e.1 = i ∨ e.2 = i) ∨
  (∃ r ∈ s.properties, r.id = i) ∨ (∃ e ∈ s.labels, e.1 = i)

instance (s : CacheState) (i : String) : Decidable (referencesId s i) := by
  unfold referencesId; infer_instance

/-- First-occurrence deduplication of a list, continued from an
accumulator (the order `INSERT OR IGNORE` produces). -/
def dedupFrom (acc : List String) (l : List String) : List String :=
  l.foldl (fun a p => if p ∈ a then a else a ++ [p]) acc

/-- First-occurrence deduplication of a list. -/
def dedupKeepFirst (l : List String) : List String := dedupFrom [] l

/-- Folding the per-node resolve-cache maintenance over a list of
constructed nodes. -/
def applyCache (c : List (String × Node)) (ns : List Node) : List (String × Node) :=
  ns.foldl cacheApply c

/-- The net effect of the resolve-cache maintenance of a node list on one
key: the last node carrying that id determines the entry (`some (some n)`
when it ends set, `some none` when it ends deleted); `none` when no node
of the list carries the id. -/
def cacheEffect : List Node → String → Option (Option Node)
  | [], _ => none
  | n :: rest, k =>
    match cacheEffect rest k with
    | some r => some r
    | none => if n.id = k then some (if n.is_available then some n else none) else none

/-- Whether a content row survives the content invalidation performed by
`insert_files` for a batch of raw files. -/
def contentKeep (fs : List RawNode) (r : ContentRow) : Bool :=
  fs.all (fun g => g.status == "AVAILABLE" || !(decide (r.id = g.id)))

/-- One overwrite-by-key step: replace `x` by `r` when their keys agree. -/
def replStep {α κ : Type} [DecidableEq κ] (key : α → κ) (r x : α) : α :=
  if key x = key r then r else x

/-- Overwriting a value by every same-key element of `rs`, in order. -/
def replApp {α κ : Type} [DecidableEq κ] (key : α → κ) (rs : List α) (x : α) : α :=
  rs.foldl (fun y r => replStep key r y) x

/-- `t` holds some element with key `k`. -/
def hasKey {α κ : Type} [DecidableEq κ] (key : α → κ) (t : List α) (k : κ) : Prop :=
  ∃ x ∈ t, key x = k

/-! Schema manager (`acdcli/cache/schema.py`).  The schema-level state of
the store tracks the stamped `PRAGMA user_version` and the presence of the
structures that the creation script and the four migrations manipulate.
`conn.executescript` runs its statements sequentially and raises on the
first failing statement; an unguarded `ALTER TABLE ... ADD` fails when the
column already exists, while the `IF (NOT) EXISTS` forms never fail. -/

/-- Schema-level state of the store. -/
structure SchemaState where
  userVersion : Nat
  hasTables : Bool
  nodesHasUpdated : Bool
  nodesHasDescription : Bool
  hasFoldersTable : Bool
  ixNodesNames : Bool
  hasPropertiesTable : Bool
  ixParentageChild : Bool
  ixParentageParent : Bool
  filesHasVersion : Bool
  hasContentTable : Bool
  ixContentSize : Bool
  ixContentAccessed : Bool
deriving DecidableEq

/-- `SchemaMixin._DB_SCHEMA_VER`, the compiled-in current schema version. -/
def db_schema_ver : Nat := 4

/-- The store produced by running the creation script on a fresh store:
all tables and indexes present, stamped at version 4. -/
def freshSchema : SchemaState :=
  { userVersion := 4
    hasTables := true
    nodesHasUpdated := true
    nodesHasDescription := true
    hasFoldersTable := false
    ixNodesNames := true
    hasPropertiesTable := true
    ixParentageChild := true
    ixParentageParent := true
    filesHasVersion := true
    hasContentTable := true
    ixContentSize := true
    ixContentAccessed := true }

/-- `SchemaMixin.create_tables`: run the creation script; its first
statement (`CREATE TABLE metadata`) raises an `OperationalError` when the
tables already exist. -/
def create_tables (s : SchemaState) : Except String SchemaState :=
  if s.hasTables then Except.error "table metadata already exists"
  else Except.ok freshSchema

/-- Migration step 0→1: two unguarded `ALTER TABLE nodes ADD`, then stamp
version 1. -/
def _0_to_1 (s : SchemaState) : Except String SchemaState :=
  if s.nodesHasUpdated then Except.error "duplicate column name: updated"
  else
    let s1 := { s with nodesHasUpdated := true }
    if s1.nodesHasDescription then Except.error "duplicate column name: description"
    else Except.ok { s1 with nodesHasDescription := true, userVersion := 1 }

/-- Migration step 1→2: `DROP TABLE IF EXISTS folders`, `CREATE INDEX IF
NOT EXISTS`, `REINDEX`, then stamp version 2; never fails. -/
def _1_to_2 (s : SchemaState) : Except String SchemaState :=
  Except.ok { s with hasFoldersTable := false, ixNodesNames := true, userVersion := 2 }

/-- Migration step 2→3: `CREATE TABLE IF NOT EXISTS properties`, two
`CREATE INDEX IF NOT EXISTS`, `ANALYZE`, then stamp version 3; never
fails. -/
def _2_to_3 (s : SchemaState) : Except String SchemaState :=
  Except.ok { s with hasPropertiesTable := true, ixParentageChild := true,
                     ixParentageParent := true, userVersion := 3 }

/-- Migration step 3→4: unguarded `ALTER TABLE files ADD version`, then
drop-and-recreate `content` with its two guarded indexes, then stamp
version 4. -/
def _3_to_4 (s : SchemaState) : Except String SchemaState :=
  if s.filesHasVersion then Except.error "duplicate column name: version"
  else Except.ok { s with filesHasVersion := true, hasContentTable := true,
                          ixContentSize := true, ixContentAccessed := true, userVersion := 4 }

/-- The ordered migration chain (`_migrations` of schema.py). -/
def all_migrations : List (SchemaState → Except String SchemaState) :=
  [_0_to_1, _1_to_2, _2_to_3, _3_to_4]

/-- `SchemaMixin._migrate`: apply `_migrations[version:]` in order; any
step's error propagates. -/
def _migrate (version : Nat) (s : SchemaState) : Except String SchemaState :=
  (all_migrations.drop version).foldl (fun acc m => acc.bind m) (Except.ok s)

/-- `SchemaMixin.init`: attempt table creation, swallowing the
already-exists `OperationalError`; then read the stamped version and
migrate when it is below the compiled-in current version. -/
def schema_init (s : SchemaState) : Except String SchemaState :=
  let s1 := match create_tables s with
    | Except.ok s' => s'
    | Except.error _ => s
  if s1.userVersion < db_schema_ver then _migrate s1.userVersion s1 else Except.ok s1

/-- A genuine version-0 store: stamped 0, tables present, none of the
structures added by the later migrations present. -/
def v0Schema : SchemaState :=
  { userVersion := 0
    hasTables := true
    nodesHasUpdated := false
    nodesHasDescription := false
    hasFoldersTable := true
    ixNodesNames := false
    hasPropertiesTable := false
    ixParentageChild := false
    ixParentageParent := false
    filesHasVersion := false
    hasContentTable := false
    ixContentSize := false
    ixContentAccessed := false }

/-! Concrete sample inputs used by the closed instance checks. -/

/-- The empty cache state. -/
def emptyState : CacheState := ⟨[], [], [], [], [], [], [], [], [], []⟩

/-- A concrete raw folder description. -/
def sampleFolder (i : String) (stt : String) : RawNode :=
  { id := i, kind := "FOLDER", status := stt, name := some ("dir-" ++ i)
    description := none, createdDate := "2020-01-01T00:00:00Z"
    modifiedDate := "2020-01-01T00:00:00Z", parents := []
    contentMd5 := none, contentSize := none, contentVersion := none
    props := [], isRoot := false }

/-- A concrete raw file description. -/
def sampleFile (i : String) (stt : String) (ps : List String) : RawNode :=
  { id := i, kind := "FILE", status := stt, name := some (i ++ ".txt")
    description := none, createdDate := "2020-01-02T00:00:00Z"
    modifiedDate := "2020-01-02T00:00:00Z", parents := ps
    contentMd5 := some "abc", contentSize := some 3, contentVersion := some 1
    props := [], isRoot := false }

/-- A concrete raw node of kind `ASSET`. -/
def sampleAsset : RawNode :=
  { id := "A1", kind := "ASSET", status := "AVAILABLE", name := some "a"
    description := none, createdDate := "c", modifiedDate := "m", parents := []
    contentMd5 := none, contentSize := none, contentVersion := none
    props := [], isRoot := false }

/-- 250 distinct purged ids (exercising three chunks of the slicer). -/
def purged250 : List String := (List.range 250).map (fun k => "id" ++ toString k)

/-- A state with rows referencing ids of `purged250` in every table. -/
def c5state : CacheState :=
  { emptyState with
    nodes := [{ id := "id249", type := "file", name := some "x", description := none
                created := "c", modified := "m", updated := 0, status := "AVAILABLE" }]
    files := [{ id := "id249", md5 := some "abc", size := 3, version := 1 }]
    content := [{ id := "id249", value := [1, 2, 3], size := 3, version := 1, accessed := 0 }]
    parentage := [("id249", "z"), ("w", "id0")]
    properties := [{ id := "id249", owner := "o", key := "k", value := "v" }]
    labels := [("id0", "lbl")] }

/-- A state whose child `X` has the pre-existing parent edges `A` and `B`. -/
def c4state : CacheState := { emptyState with parentage := [("A", "X"), ("B", "X")] }

/-- The child `X` re-declared with the single parent `C`. -/
def c4child : RawNode :=
  { id := "X", kind := "FOLDER", status := "AVAILABLE", name := some "x"
    description := none, createdDate := "c", modifiedDate := "m", parents := ["C"]
    contentMd5 := none, contentSize := none, contentVersion := none
    props := [], isRoot := false }

/-- A state with one entry in each resolve-cache map. -/
def c3state : CacheState :=
  { emptyState with
    pathToNodeId := [("/dir-X", "X")]
    nodeIdToNode := [("X", mkFolderNode 0 (sampleFolder "X" "AVAILABLE"))] }

/-! Generic list lemmas. -/

/-- A map that fixes every element of a list is the identity on it. -/
theorem map_id_of_mem {β : Type} (l : List β) (f : β → β) (h : ∀ x ∈ l, f x = x) :
    l.map f = l := by
  induction l with
  | nil => rfl
  | cons a t ih => simp only [List.map_cons, h a (by simp), ih (fun x hx => h x (by simp [hx]))]

/-- Pointwise-equal maps agree on a list. -/
theorem map_congr_mem {β γ : Type} (l : List β) (f g : β → γ) (h : ∀ x ∈ l, f x = g x) :
    l.map f = l.map g := by
  induction l with
  | nil => rfl
  | cons a t ih => simp only [List.map_cons, h a (by simp), ih (fun x hx => h x (by simp [hx]))]

/-- Composing two filters filters by the conjunction. -/
theorem filter_comp {β : Type} (p q : β → Bool) (l : List β) :
    (l.filter p).filter q = l.filter (fun x => p x && q x) := by
  induction l with
  | nil => rfl
  | cons a t ih =>
    by_cases hp : p a <;> by_cases hq : q a <;> simp [List.filter_cons, hp, hq, ih]

/-- A filter that keeps every element is the identity. -/
theorem filter_all_keep {β : Type} (p : β → Bool) (l : List β) (h : ∀ x ∈ l, p x = true) :
    l.filter p = l := by
  induction l with
  | nil => rfl
  | cons a t ih =>
    simp only [List.filter_cons, h a (by simp), ih (fun x hx => h x (by simp [hx]))]
    simp

/-- A filter that keeps no element empties the list. -/
theorem filter_none_keep {β : Type} (p : β → Bool) (l : List β) (h : ∀ x ∈ l, p x = false) :
    l.filter p = [] := by
  induction l with
  | nil => rfl
  | cons a t ih =>
    simp only [List.filter_cons, h a (by simp), ih (fun x hx => h x (by simp [hx]))]
    simp

/-- Joining the slices produced by `gen_slice` with a positive chunk size
restores the original list: no element is dropped or duplicated by the
chunking. -/
theorem gen_slice_join {β : Type} (l : List β) (n : Nat) (hn : 0 < n) :
    (gen_slice l n).flatten = l := by
  match l, n with
  | [], _ => simp [gen_slice]
  | _ :: _, 0 => cases hn
  | a :: as, m + 1 =>
    have ih := gen_slice_join ((a :: as).drop (m + 1)) (m + 1) (Nat.succ_pos m)
    rw [gen_slice]
    simp only [List.flatten_cons, ih, List.take_append_drop]
termination_by l.length
decreasing_by
  simp only [List.drop_succ_cons, List.length_drop, List.length_cons]
  omega

/-! The update-in-place upsert: generic idempotence development. -/

/-- `replStep` preserves the key. -/
theorem key_replStep {α κ : Type} [DecidableEq κ] (key : α → κ) (r x : α) :
    key (replStep key r x) = key x := by
  unfold replStep; split <;> simp_all

/-- `replApp` preserves the key. -/
theorem key_replApp {α κ : Type} [DecidableEq κ] (key : α → κ) (rs : List α) (x : α) :
    key (replApp key rs x) = key x := by
  induction rs generalizing x with
  | nil => rfl
  | cons a l ih =>
    show key (replApp key l (replStep key a x)) = key x
    rw [ih (replStep key a x), key_replStep key a x]

theorem replApp_append {α κ : Type} [DecidableEq κ] (key : α → κ) (rs : List α) (a x : α) :
    replApp key (rs ++ [a]) x = replStep key a (replApp key rs x) := by
  simp [replApp, List.foldl_append]

/-- When the key is present, the upsert is the in-place overwrite. -/
theorem upsertBy_of_hasKey {α κ : Type} [DecidableEq κ] (key : α → κ) (t : List α) (r : α)
    (h : hasKey key t (key r)) : upsertBy key t r = t.map (replStep key r) := by
  unfold upsertBy
  rw [if_pos (show ∃ x ∈ t, key x = key r from h)]
  rfl

/-- When the key is absent, the upsert appends. -/
theorem upsertBy_of_not_hasKey {α κ : Type} [DecidableEq κ] (key : α → κ) (t : List α) (r : α)
    (h : ¬ hasKey key t (key r)) : upsertBy key t r = t ++ [r] := by
  unfold upsertBy
  rw [if_neg (show ¬ ∃ x ∈ t, key x = key r from h)]

theorem hasKey_map_replStep {α κ : Type} [DecidableEq κ] (key : α → κ) (t : List α) (a : α)
    (k : κ) : hasKey key (t.map (replStep key a)) k ↔ hasKey key t k := by
  unfold hasKey
  constructor
  · rintro ⟨x, hx, hk⟩
    simp only [List.mem_map] at hx
    obtain ⟨y, hy, rfl⟩ := hx
    exact ⟨y, hy, by rwa [key_replStep key a y] at hk⟩
  · rintro ⟨x, hx, hk⟩
    exact ⟨replStep key a x, List.mem_map_of_mem _ hx, by rw [key_replStep key a x]; exact hk⟩

theorem hasKey_upsertBy_mono {α κ : Type} [DecidableEq κ] (key : α → κ) (t : List α) (r : α)
    (k : κ) (h : hasKey key t k) : hasKey key (upsertBy key t r) k := by
  unfold upsertBy
  split
  · exact (hasKey_map_replStep key t r k).mpr h
  · obtain ⟨x, hx, hk⟩ := h
    exact ⟨x, List.mem_append_left _ hx, hk⟩

theorem hasKey_upsertBy_self {α κ : Type} [DecidableEq κ] (key : α → κ) (t : List α) (r : α) :
    hasKey key (upsertBy key t r) (key r) := by
  unfold upsertBy
  split
  · rename_i h
    obtain ⟨x, hx, hk⟩ := h
    exact ⟨replStep key r x, List.mem_map_of_mem _ hx, by rw [key_replStep key r x]; exact hk⟩
  · exact ⟨r, by simp, rfl⟩

theorem hasKey_upsertAll_mono {α κ : Type} [DecidableEq κ] (key : α → κ) (rs : List α)
    (t : List α) (k : κ) (h : hasKey key t k) : hasKey key (upsertAll key t rs) k := by
  induction rs generalizing t with
  | nil => exact h
  | cons a l ih => exact ih _ (hasKey_upsertBy_mono key t a k h)

theorem hasKey_upsertAll_of_mem {α κ : Type} [DecidableEq κ] (key : α → κ) (rs : List α)
    (t : List α) : ∀ r ∈ rs, hasKey key (upsertAll key t rs) (key r) := by
  induction rs generalizing t with
  | nil => intro r hr; cases hr
  | cons a l ih =>
    intro r hr
    rcases List.mem_cons.mp hr with rfl | h'
    · exact hasKey_upsertAll_mono key l _ _ (hasKey_upsertBy_self key t r)
    · exact ih _ r h'

/-- When every key of the batch is already present, the whole upsert pass
is a pointwise map. -/
theorem upsertAll_map {α κ : Type} [DecidableEq κ] (key : α → κ) (rs : List α) (t : List α)
    (h : ∀ r ∈ rs, hasKey key t (key r)) :
    upsertAll key t rs = t.map (replApp key rs) := by
  induction rs generalizing t with
  | nil =>
    show t = t.map (replApp key [])
    exact (map_id_of_mem t _ (fun x _ => rfl)).symm
  | cons a l ih =>
    have ha : hasKey key t (key a) := h a (by simp)
    have step : upsertBy key t a = t.map (replStep key a) := upsertBy_of_hasKey key t a ha
    have hl : ∀ r ∈ l, hasKey key (t.map (replStep key a)) (key r) := by
      intro r hr
      exact (hasKey_map_replStep key t a (key r)).mpr (h r (by simp [hr]))
    calc upsertAll key t (a :: l) = upsertAll key (t.map (replStep key a)) l := by
          simp [upsertAll, List.foldl_cons, step]
      _ = (t.map (replStep key a)).map (replApp key l) := ih _ hl
      _ = t.map (replApp key (a :: l)) := by
          rw [List.map_map]
          exact map_congr_mem t _ _ (fun x _ => rfl)

/-- Every row of an upsert pass is already the last write of the batch for
its key: replaying the batch over it fixes it. -/
theorem replApp_fixed {α κ : Type} [DecidableEq κ] (key : α → κ) (rs : List α) (t : List α) :
    ∀ x ∈ upsertAll key t rs, replApp key rs x = x := by
  induction rs using List.reverseRecOn generalizing t with
  | nil => intro x _; rfl
  | append_singleton l a ih =>
    intro x hx
    have hsplit : upsertAll key t (l ++ [a]) = upsertBy key (upsertAll key t l) a := by
      simp [upsertAll, List.foldl_append]
    rw [hsplit] at hx
    rw [replApp_append]
    by_cases hk : hasKey key (upsertAll key t l) (key a)
    · rw [upsertBy_of_hasKey key _ a hk] at hx
      simp only [List.mem_map] at hx
      obtain ⟨y, hy, rfl⟩ := hx
      by_cases hky : key y = key a
      · have h1 : replStep key a y = a := by unfold replStep; rw [if_pos hky]
        rw [h1]
        show replStep key a (replApp key l a) = a
        unfold replStep
        rw [if_pos (by rw [key_replApp key l a])]
      · have h1 : replStep key a y = y := by unfold replStep; rw [if_neg hky]
        rw [h1, ih _ _ hy]
        unfold replStep
        rw [if_neg hky]
    · rw [upsertBy_of_not_hasKey key _ a hk] at hx
      rcases List.mem_append.mp hx with hx' | hx'
      · have hky : key x ≠ key a := fun he => hk ⟨x, hx', he⟩
        rw [ih _ _ hx']
        unfold replStep
        rw [if_neg hky]
      · simp only [List.mem_singleton] at hx'
        subst hx'
        show replStep key x (replApp key l x) = x
        unfold replStep
        rw [if_pos (by rw [key_replApp key l x])]

/-- Idempotence of a full upsert pass: replaying the identical batch of
rows over its own result changes nothing. -/
theorem upsertAll_idem {α κ : Type} [DecidableEq κ] (key : α → κ) (t : List α) (rs : List α) :
    upsertAll key (upsertAll key t rs) rs = upsertAll key t rs := by
  rw [upsertAll_map key rs _ (fun r hr => hasKey_upsertAll_of_mem key rs t r hr)]
  exact map_id_of_mem _ _ (replApp_fixed key rs t)

/-! Characterizations of the insert operations, component by component. -/

theorem filter_congr_mem {β : Type} (l : List β) (p q : β → Bool) (h : ∀ x ∈ l, p x = q x) :
    l.filter p = l.filter q := by
  induction l with
  | nil => rfl
  | cons a t ih =>
    simp only [List.filter_cons, h a (by simp)]
    rw [ih (fun x hx => h x (by simp [hx]))]

theorem upsertAll_append {α κ : Type} [DecidableEq κ] (key : α → κ) (t : List α)
    (rs rs' : List α) : upsertAll key (upsertAll key t rs) rs' = upsertAll key t (rs ++ rs') := by
  simp [upsertAll, List.foldl_append]

theorem applyCache_append (c : List (String × Node)) (ns ms : List Node) :
    applyCache (applyCache c ns) ms = applyCache c (ns ++ ms) := by
  simp [applyCache, List.foldl_append]

/-- One folder step, written as a record update. -/
theorem folder_step_eq (now : Nat) (s : CacheState) (f : RawNode) :
    folder_step now s f =
      { s with nodes := upsertBy NodeRow.id s.nodes (nodeRow (mkFolderNode now f))
               nodeIdToNode := cacheApply s.nodeIdToNode (mkFolderNode now f) } := rfl

/-- The folder loop acts only on the nodes table and the id→Node map. -/
theorem folder_fold_char (now : Nat) (L : List RawNode) (s : CacheState) :
    L.foldl (folder_step now) s =
      { s with nodes := upsertAll NodeRow.id s.nodes (L.map (fun f => nodeRow (mkFolderNode now f)))
               nodeIdToNode := applyCache s.nodeIdToNode (L.map (mkFolderNode now)) } := by
  induction L generalizing s with
  | nil => simp [upsertAll, applyCache]
  | cons a l ih =>
    simp only [List.foldl_cons, List.map_cons]
    rw [folder_step_eq, ih]
    rfl

/-- `insert_folders`, characterized as a record update. -/
theorem insert_folders_char (now : Nat) (s : CacheState) (L : List RawNode) :
    insert_folders now s L =
      { s with nodes := upsertAll NodeRow.id s.nodes (L.map (fun f => nodeRow (mkFolderNode now f)))
               nodeIdToNode := applyCache s.nodeIdToNode (L.map (mkFolderNode now))
               infos := if L = [] then s.infos
                 else s.infos ++ ["Inserted/updated " ++ toString L.length ++ " folder(s)."] } := by
  unfold insert_folders
  by_cases h : L = []
  · subst h
    simp [upsertAll, applyCache]
  · rw [if_neg h, folder_fold_char]
    simp [h]

/-- One file step, written as a record update. -/
theorem file_step_eq (now : Nat) (s : CacheState) (f : RawNode) :
    file_step now s f =
      { s with nodes := upsertBy NodeRow.id s.nodes (nodeRow (mkFileNode now f))
               files := upsertBy FileRow.id s.files (fileRow (mkFileNode now f))
               content := if (mkFileNode now f).is_available then s.content
                 else s.content.filter (fun r => !(decide (r.id = (mkFileNode now f).id)))
               nodeIdToNode := cacheApply s.nodeIdToNode (mkFileNode now f) } := by
  by_cases h : (mkFileNode now f).is_available <;>
    simp [file_step, remove_content, h]

/-- The file loop, characterized component by component; the content table
is filtered by `contentKeep`. -/
theorem file_fold_char (now : Nat) (L : List RawNode) (s : CacheState) :
    L.foldl (file_step now) s =
      { s with nodes := upsertAll NodeRow.id s.nodes (L.map (fun f => nodeRow (mkFileNode now f)))
               files := upsertAll FileRow.id s.files (L.map (fun f => fileRow (mkFileNode now f)))
               content := s.content.filter (contentKeep L)
               nodeIdToNode := applyCache s.nodeIdToNode (L.map (mkFileNode now)) } := by
  induction L generalizing s with
  | nil =>
    have hc : s.content.filter (contentKeep []) = s.content :=
      filter_all_keep _ _ (fun x _ => rfl)
    simp [upsertAll, applyCache, hc]
  | cons a l ih =>
    simp only [List.foldl_cons, List.map_cons]
    rw [file_step_eq, ih]
    have hav : (mkFileNode now a).is_available = (a.status == "AVAILABLE") := rfl
    have hid : (mkFileNode now a).id = a.id := rfl
    by_cases h : a.status == "AVAILABLE"
    · have : ∀ r ∈ s.content, contentKeep l r = contentKeep (a :: l) r := by
        intro r _
        simp [contentKeep, h]
      simp only [hav, hid, h, if_pos]
      rw [filter_congr_mem s.content _ _ (fun r hr => (this r hr).symm)]
      rfl
    · have hb : (a.status == "AVAILABLE") = false := by simpa using h
      simp only [hav, hid, hb, if_neg Bool.false_ne_true]
      rw [filter_comp]
      rw [filter_congr_mem s.content _ _ (fun r _ => ?_)]
      · rfl
      · simp [contentKeep, hb]

/-- `insert_files`, characterized as a record update. -/
theorem insert_files_char (now : Nat) (s : CacheState) (L : List RawNode) :
    insert_files now s L =
      { s with nodes := upsertAll NodeRow.id s.nodes (L.map (fun f => nodeRow (mkFileNode now f)))
               files := upsertAll FileRow.id s.files (L.map (fun f => fileRow (mkFileNode now f)))
               content := s.content.filter (contentKeep L)
               nodeIdToNode := applyCache s.nodeIdToNode (L.map (mkFileNode now))
               infos := if L = [] then s.infos
                 else s.infos ++ ["Inserted/updated " ++ toString L.length ++ " file(s)."] } := by
  unfold insert_files
  by_cases h : L = []
  · subst h
    have hc : s.content.filter (contentKeep []) = s.content :=
      filter_all_keep _ _ (fun x _ => rfl)
    simp [upsertAll, applyCache, hc]
  · rw [if_neg h, file_fold_char]
    simp [h]

/-- The chunked delete phase of `insert_parentage` equals a single filter
on the batch's child ids: chunking drops no child and spares none. -/
theorem del_child_edges_char (t : List (String × String)) (ns : List RawNode) :
    del_child_edges t ns = t.filter (fun e => !(decide (e.2 ∈ ns.map RawNode.id))) := by
  unfold del_child_edges
  have key : ∀ (sls : List (List RawNode)) (t : List (String × String)),
      sls.foldl (fun t sl => t.filter (fun e => !(decide (e.2 ∈ sl.map RawNode.id)))) t
        = t.filter (fun e => !(decide (e.2 ∈ sls.flatten.map RawNode.id))) := by
    intro sls
    induction sls with
    | nil =>
      intro t
      exact (filter_all_keep _ _ (fun x _ => by simp)).symm
    | cons sl rest ih =>
      intro t
      rw [List.foldl_cons, ih, filter_comp]
      refine filter_congr_mem _ _ _ (fun e _ => ?_)
      simp [List.flatten_cons, List.map_append, List.mem_append, Bool.decide_or, Bool.not_or]
  rw [key]
  rw [gen_slice_join ns 100 (by omega)]

/-- `insert_parentage`, characterized as a record update. -/
theorem insert_parentage_char (s : CacheState) (ns : List RawNode) (pf : Bool) :
    insert_parentage s ns pf =
      { s with parentage := ins_edges (if pf then del_child_edges s.parentage ns
                 else s.parentage) ns
               infos := if ns = [] then s.infos
                 else s.infos ++ ["Parented " ++ toString ns.length ++ " node(s)."] } := by
  unfold insert_parentage
  by_cases h : ns = []
  · subst h
    have h2 : ∀ t, del_child_edges t ([] : List RawNode) = t := by
      intro t; rw [del_child_edges_char]; exact filter_all_keep _ _ (fun x _ => by simp)
    cases pf <;> simp [ins_edges, h2]
  · rw [if_neg h]
    simp [h]

/-- `insert_properties`, characterized as a record update. -/
theorem insert_properties_char (s : CacheState) (ns : List RawNode) :
    insert_properties s ns =
      { s with properties := upsertAll propKey s.properties (ns.flatMap prop_rows)
               infos := if ns = [] then s.infos
                 else s.infos ++ ["Applied properties to " ++ toString ns.length ++ " node(s)."] } := by
  unfold insert_properties
  by_cases h : ns = []
  · subst h
    simp [upsertAll]
  · rw [if_neg h]
    simp [h]

/-! Lemmas about the `INSERT OR IGNORE` edge loop. -/

/-- The inner parent loop preserves existing edges. -/
theorem parents_fold_mono (ps : List String) (c : String) (t : List (String × String))
    (e : String × String) (h : e ∈ t) :
    e ∈ ps.foldl (fun t p => if (p, c) ∈ t then t else t ++ [(p, c)]) t := by
  induction ps generalizing t with
  | nil => exact h
  | cons p rest ih =>
    simp only [List.foldl_cons]
    apply ih
    split
    · exact h
    · exact List.mem_append_left _ h

/-- The inner parent loop establishes every declared edge of its node. -/
theorem parents_fold_self (ps : List String) (c : String) (t : List (String × String)) :
    ∀ p ∈ ps, (p, c) ∈ ps.foldl (fun t p => if (p, c) ∈ t then t else t ++ [(p, c)]) t := by
  induction ps generalizing t with
  | nil => intro p hp; cases hp
  | cons p0 rest ih =>
    intro p hp
    simp only [List.foldl_cons]
    rcases List.mem_cons.mp hp with rfl | hp'
    · apply parents_fold_mono
      split
      · assumption
      · exact List.mem_append_right _ (by simp)
    · exact ih _ p hp'

/-- The inner parent loop is a no-op when every declared edge is present. -/
theorem parents_fold_noop (ps : List String) (c : String) (t : List (String × String))
    (h : ∀ p ∈ ps, (p, c) ∈ t) :
    ps.foldl (fun t p => if (p, c) ∈ t then t else t ++ [(p, c)]) t = t := by
  induction ps with
  | nil => rfl
  | cons p rest ih =>
    simp only [List.foldl_cons, if_pos (h p (by simp))]
    exact ih (fun q hq => h q (by simp [hq]))

/-- The inner parent loop only appends, and appends only edges of its
node. -/
theorem parents_fold_decomp (ps : List String) (c : String) (t : List (String × String)) :
    ∃ ex, ps.foldl (fun t p => if (p, c) ∈ t then t else t ++ [(p, c)]) t = t ++ ex ∧
      ∀ e ∈ ex, e.2 = c := by
  induction ps generalizing t with
  | nil => exact ⟨[], by simp, by simp⟩
  | cons p rest ih =>
    simp only [List.foldl_cons]
    split
    · exact ih t
    · obtain ⟨ex, heq, hall⟩ := ih (t ++ [(p, c)])
      refine ⟨(p, c) :: ex, by simp [heq], ?_⟩
      intro e he
      rcases List.mem_cons.mp he with rfl | he'
      · rfl
      · exact hall e he'

/-- The edge loop preserves existing edges. -/
theorem ins_edges_mono (ns : List RawNode) (t : List (String × String))
    (e : String × String) (h : e ∈ t) : e ∈ ins_edges t ns := by
  induction ns generalizing t with
  | nil => exact h
  | cons n rest ih =>
    unfold ins_edges
    simp only [List.foldl_cons]
    exact ih _ (parents_fold_mono n.parents n.id t e h)

/-- The edge loop establishes every declared edge of the batch. -/
theorem ins_edges_mem (ns : List RawNode) (t : List (String × String)) :
    ∀ n ∈ ns, ∀ p ∈ n.parents, (p, n.id) ∈ ins_edges t ns := by
  induction ns generalizing t with
  | nil => intro n hn; cases hn
  | cons m rest ih =>
    intro n hn p hp
    unfold ins_edges
    simp only [List.foldl_cons]
    rcases List.mem_cons.mp hn with rfl | hn'
    · exact ins_edges_mono rest _ _ (parents_fold_self n.parents n.id t p hp)
    · exact ih _ n hn' p hp

/-- The edge loop is a no-op when every declared edge of the batch is
already present. -/
theorem ins_edges_noop (ns : List RawNode) (t : List (String × String))
    (h : ∀ n ∈ ns, ∀ p ∈ n.parents, (p, n.id) ∈ t) : ins_edges t ns = t := by
  induction ns with
  | nil => rfl
  | cons m rest ih =>
    unfold ins_edges
    simp only [List.foldl_cons]
    rw [parents_fold_noop m.parents m.id t (h m (by simp))]
    exact ih (fun n hn p hp => h n (by simp [hn]) p hp)

/-- The edge loop only appends, and appends only edges whose child is in
the batch. -/
theorem ins_edges_decomp (ns : List RawNode) (t : List (String × String)) :
    ∃ ex, ins_edges t ns = t ++ ex ∧ ∀ e ∈ ex, ∃ n ∈ ns, e.2 = n.id := by
  induction ns generalizing t with
  | nil => exact ⟨[], by simp [ins_edges], by simp⟩
  | cons m rest ih =>
    simp only [ins_edges, List.foldl_cons] at ih ⊢
    obtain ⟨ex1, heq1, hall1⟩ := parents_fold_decomp m.parents m.id t
    rw [heq1]
    obtain ⟨ex2, heq2, hall2⟩ := ih (t ++ ex1)
    refine ⟨ex1 ++ ex2, by rw [heq2, List.append_assoc], ?_⟩
    intro e he
    rcases List.mem_append.mp he with he' | he'
    · exact ⟨m, by simp, hall1 e he'⟩
    · obtain ⟨n, hn, hid⟩ := hall2 e he'
      exact ⟨n, by simp [hn], hid⟩

/-! Lookup lemmas for the resolve-cache maps. -/

theorem dictGet_cons {β : Type} (k1 : String) (v1 : β) (rest : List (String × β)) (k : String) :
    dictGet ((k1, v1) :: rest) k = if k1 = k then some v1 else dictGet rest k := rfl

theorem dictGet_map_repl_self {β : Type} (c : List (String × β)) (k : String) (v : β)
    (h : hasKey Prod.fst c k) :
    dictGet (c.map (replStep Prod.fst (k, v))) k = some v := by
  induction c with
  | nil => obtain ⟨x, hx, _⟩ := h; cases hx
  | cons a rest ih =>
    obtain ⟨k1, v1⟩ := a
    by_cases hk : k1 = k
    · subst hk
      simp [List.map_cons, replStep, dictGet_cons]
    · have h' : hasKey Prod.fst rest k := by
        obtain ⟨x, hx, hxk⟩ := h
        rcases List.mem_cons.mp hx with rfl | hx'
        · exact absurd hxk hk
        · exact ⟨x, hx', hxk⟩
      simp only [List.map_cons, replStep, if_neg (show ¬ ((k1, v1) : String × β).1 =
        ((k, v) : String × β).1 from hk), dictGet_cons, if_neg hk]
      exact ih h'

theorem dictGet_map_repl_ne {β : Type} (c : List (String × β)) (k k' : String) (v : β)
    (h : k' ≠ k) :
    dictGet (c.map (replStep Prod.fst (k, v))) k' = dictGet c k' := by
  induction c with
  | nil => rfl
  | cons a rest ih =>
    obtain ⟨k1, v1⟩ := a
    by_cases hk : k1 = k
    · subst hk
      have hstep : replStep Prod.fst (k1, v) (k1, v1) = (k1, v) := by simp [replStep]
      have hne : k1 ≠ k' := fun he => h he.symm
      simp only [List.map_cons, hstep, dictGet_cons, if_neg hne, ih]
    · simp only [List.map_cons, replStep, if_neg (show ¬ ((k1, v1) : String × β).1 =
        ((k, v) : String × β).1 from hk), dictGet_cons, ih]

theorem dictGet_append_single_self {β : Type} (c : List (String × β)) (k : String) (v : β)
    (h : ¬ hasKey Prod.fst c k) :
    dictGet (c ++ [(k, v)]) k = some v := by
  induction c with
  | nil => simp [dictGet]
  | cons a rest ih =>
    obtain ⟨k1, v1⟩ := a
    have hk1 : k1 ≠ k := fun he => h ⟨(k1, v1), by simp, he⟩
    simp only [List.cons_append, dictGet_cons, if_neg hk1]
    exact ih (fun ⟨x, hx, hxk⟩ => h ⟨x, by simp [hx], hxk⟩)

theorem dictGet_append_single_ne {β : Type} (c : List (String × β)) (k k' : String) (v : β)
    (h : k' ≠ k) :
    dictGet (c ++ [(k, v)]) k' = dictGet c k' := by
  induction c with
  | nil =>
    show (if k = k' then some v else dictGet [] k') = dictGet [] k'
    rw [if_neg (fun he => h he.symm)]
  | cons a rest ih =>
    obtain ⟨k1, v1⟩ := a
    simp only [List.cons_append, dictGet_cons, ih]

theorem dictGet_upsert_self {β : Type} (c : List (String × β)) (k : String) (v : β) :
    dictGet (upsertBy Prod.fst c (k, v)) k = some v := by
  by_cases h : hasKey Prod.fst c (((k, v) : String × β).1)
  · rw [upsertBy_of_hasKey Prod.fst c (k, v) h]
    exact dictGet_map_repl_self c k v h
  · rw [upsertBy_of_not_hasKey Prod.fst c (k, v) h]
    exact dictGet_append_single_self c k v h

theorem dictGet_upsert_ne {β : Type} (c : List (String × β)) (k k' : String) (v : β)
    (h : k' ≠ k) : dictGet (upsertBy Prod.fst c (k, v)) k' = dictGet c k' := by
  by_cases hk : hasKey Prod.fst c (((k, v) : String × β).1)
  · rw [upsertBy_of_hasKey Prod.fst c (k, v) hk]
    exact dictGet_map_repl_ne c k k' v h
  · rw [upsertBy_of_not_hasKey Prod.fst c (k, v) hk]
    exact dictGet_append_single_ne c k k' v h

theorem dictGet_del_self {β : Type} (c : List (String × β)) (k : String) :
    dictGet (c.filter (fun e => !(decide (e.1 = k)))) k = none := by
  induction c with
  | nil => rfl
  | cons a rest ih =>
    obtain ⟨k1, v1⟩ := a
    by_cases h1 : k1 = k
    · subst h1
      simpa [List.filter_cons] using ih
    · simp only [List.filter_cons]
      simp only [show (!(decide (((k1, v1) : String × β).1 = k))) = true by simp [h1], if_pos]
      simp only [dictGet_cons, if_neg h1]
      exact ih

theorem dictGet_del_ne {β : Type} (c : List (String × β)) (k k' : String) (h : k' ≠ k) :
    dictGet (c.filter (fun e => !(decide (e.1 = k)))) k' = dictGet c k' := by
  induction c with
  | nil => rfl
  | cons a rest ih =>
    obtain ⟨k1, v1⟩ := a
    by_cases h1 : k1 = k
    · subst h1
      have hne : k1 ≠ k' := fun he => h he.symm
      simp only [List.filter_cons]
      rw [if_neg (by simp)]
      rw [ih, dictGet_cons, if_neg hne]
    · simp only [List.filter_cons]
      rw [if_pos (by simp [h1])]
      rw [dictGet_cons, dictGet_cons, ih]

/-! The net effect of a cache-maintenance pass on a single key. -/

theorem cacheEffect_append_some (xs ys : List Node) (k : String) (r : Option Node)
    (h : cacheEffect ys k = some r) : cacheEffect (xs ++ ys) k = some r := by
  induction xs with
  | nil => simpa using h
  | cons n rest ih =>
    show cacheEffect (n :: (rest ++ ys)) k = some r
    unfold cacheEffect
    rw [ih]

theorem cacheEffect_append_none (xs ys : List Node) (k : String)
    (h : cacheEffect ys k = none) : cacheEffect (xs ++ ys) k = cacheEffect xs k := by
  induction xs with
  | nil => simpa using h
  | cons n rest ih =>
    show cacheEffect (n :: (rest ++ ys)) k = cacheEffect (n :: rest) k
    unfold cacheEffect
    rw [ih]

theorem cacheEffect_none_of_no_id (ns : List Node) (k : String)
    (h : ∀ n ∈ ns, n.id ≠ k) : cacheEffect ns k = none := by
  induction ns with
  | nil => rfl
  | cons n rest ih =>
    unfold cacheEffect
    rw [ih (fun m hm => h m (by simp [hm]))]
    rw [if_neg (h n (by simp))]

theorem cacheEffect_cons (n : Node) (rest : List Node) (k : String) :
    cacheEffect (n :: rest) k =
      match cacheEffect rest k with
      | some r => some r
      | none => if n.id = k then some (if n.is_available then some n else none) else none := rfl

/-- The id→Node map after a cache-maintenance pass, looked up at one key:
the last node of the pass carrying that id decides the entry; keys no node
carries keep their previous entry. -/
theorem dictGet_applyCache (ns : List Node) (c : List (String × Node)) (k : String) :
    dictGet (applyCache c ns) k = (cacheEffect ns k).getD (dictGet c k) := by
  induction ns generalizing c with
  | nil => rfl
  | cons n rest ih =>
    show dictGet (applyCache (cacheApply c n) rest) k = _
    rw [ih (cacheApply c n), cacheEffect_cons]
    cases h : cacheEffect rest k with
    | some r => simp
    | none =>
      simp only [Option.getD_none]
      by_cases hk : n.id = k
      · rw [if_pos hk]
        subst hk
        simp only [Option.getD_some]
        unfold cacheApply
        by_cases hav : n.is_available
        · rw [if_pos hav, if_pos hav]
          exact dictGet_upsert_self c n.id n
        · rw [if_neg hav, if_neg hav]
          exact dictGet_del_self c n.id
      · rw [if_neg hk]
        simp only [Option.getD_none]
        unfold cacheApply
        by_cases hav : n.is_available
        · rw [if_pos hav]
          exact dictGet_upsert_ne c n.id k n (fun he => hk he.symm)
        · rw [if_neg hav]
          exact dictGet_del_ne c n.id k (fun he => hk he.symm)

theorem insert_nodes_nodes (now : Nat) (s : CacheState) (batch : List RawNode)
    (pf fl : Bool) :
    (insert_nodes now s batch pf fl).nodes =
      upsertAll NodeRow.id s.nodes
        ((classify batch).2.1.map (fun f => nodeRow (mkFolderNode now f)) ++
         (classify batch).1.map (fun f => nodeRow (mkFileNode now f))) := by
  unfold insert_nodes
  simp only []
  rw [insert_folders_char, insert_files_char, insert_parentage_char, insert_properties_char]
  simp only [upsertAll_append]
  cases fl <;> simp

theorem insert_nodes_files (now : Nat) (s : CacheState) (batch : List RawNode)
    (pf fl : Bool) :
    (insert_nodes now s batch pf fl).files =
      upsertAll FileRow.id s.files
        ((classify batch).1.map (fun f => fileRow (mkFileNode now f))) := by
  unfold insert_nodes
  simp only []
  rw [insert_folders_char, insert_files_char, insert_parentage_char, insert_properties_char]
  cases fl <;> simp

theorem insert_nodes_properties (now : Nat) (s : CacheState) (batch : List RawNode)
    (pf fl : Bool) :
    (insert_nodes now s batch pf fl).properties =
      upsertAll propKey s.properties
        (((classify batch).1 ++ (classify batch).2.1).flatMap prop_rows) := by
  unfold insert_nodes
  simp only []
  rw [insert_folders_char, insert_files_char, insert_parentage_char, insert_properties_char]
  cases fl <;> simp

theorem insert_nodes_parentage (now : Nat) (s : CacheState) (batch : List RawNode)
    (pf fl : Bool) :
    (insert_nodes now s batch pf fl).parentage =
      ins_edges
        (if pf then del_child_edges s.parentage ((classify batch).1 ++ (classify batch).2.1)
         else s.parentage)
        ((classify batch).1 ++ (classify batch).2.1) := by
  unfold insert_nodes
  simp only []
  rw [insert_folders_char, insert_files_char, insert_parentage_char, insert_properties_char]
  cases fl <;> simp

theorem insert_nodes_pathToNodeId (now : Nat) (s : CacheState) (batch : List RawNode)
    (pf fl : Bool) :
    (insert_nodes now s batch pf fl).pathToNodeId =
      (if fl then [] else s.pathToNodeId) := by
  unfold insert_nodes
  simp only []
  rw [insert_folders_char, insert_files_char, insert_parentage_char, insert_properties_char]
  cases fl <;> simp

theorem insert_nodes_nodeIdToNode (now : Nat) (s : CacheState) (batch : List RawNode)
    (pf fl : Bool) :
    (insert_nodes now s batch pf fl).nodeIdToNode =
      applyCache s.nodeIdToNode
        ((classify batch).2.1.map (mkFolderNode now) ++ (classify batch).1.map (mkFileNode now)) := by
  unfold insert_nodes
  simp only []
  rw [insert_folders_char, insert_files_char, insert_parentage_char, insert_properties_char]
  simp only [applyCache_append]
  cases fl <;> simp

/-- Replaying the partial delete phase over the result of a full
delete-then-insert pass restores the deleted table: the inserted edges all
have batch children and are removed again, and the survivors survive
again. -/
theorem del_ins_replay (ns : List RawNode) (par : List (String × String)) :
    del_child_edges (ins_edges (del_child_edges par ns) ns) ns = del_child_edges par ns := by
  obtain ⟨ex, heq, hall⟩ := ins_edges_decomp ns (del_child_edges par ns)
  rw [heq]
  rw [del_child_edges_char par ns] at heq ⊢
  rw [del_child_edges_char, List.filter_append]
  have h1 : (par.filter (fun e => !(decide (e.2 ∈ ns.map RawNode.id)))).filter
      (fun e => !(decide (e.2 ∈ ns.map RawNode.id)))
      = par.filter (fun e => !(decide (e.2 ∈ ns.map RawNode.id))) :=
    filter_all_keep _ _ (fun x hx => (List.mem_filter.mp hx).2)
  have h2 : ex.filter (fun e => !(decide (e.2 ∈ ns.map RawNode.id))) = [] := by
    apply filter_none_keep
    intro e he
    obtain ⟨n, hn, hid⟩ := hall e he
    have hm : e.2 ∈ ns.map RawNode.id := List.mem_map.mpr ⟨n, hn, hid.symm⟩
    simp [hm]
  rw [h1, h2, List.append_nil]

/-- Claim C1, amended: applying `insert_nodes` twice with the identical
batch and the same clock reading yields the same persisted rows in
nodes/files/parentage/properties and the same Resolve Cache contents as
applying it once. -/
theorem insert_nodes_idem_same_clock (now : Nat) (s : CacheState) (batch : List RawNode)
    (pf fl : Bool) :
    (insert_nodes now (insert_nodes now s batch pf fl) batch pf fl).nodes
        = (insert_nodes now s batch pf fl).nodes ∧
    (insert_nodes now (insert_nodes now s batch pf fl) batch pf fl).files
        = (insert_nodes now s batch pf fl).files ∧
    (insert_nodes now (insert_nodes now s batch pf fl) batch pf fl).parentage
        = (insert_nodes now s batch pf fl).parentage ∧
    (insert_nodes now (insert_nodes now s batch pf fl) batch pf fl).properties
        = (insert_nodes now s batch pf fl).properties ∧
    (insert_nodes now (insert_nodes now s batch pf fl) batch pf fl).pathToNodeId
        = (insert_nodes now s batch pf fl).pathToNodeId ∧
    ∀ k, dictGet (insert_nodes now (insert_nodes now s batch pf fl) batch pf fl).nodeIdToNode k
        = dictGet (insert_nodes now s batch pf fl).nodeIdToNode k := by
  refine ⟨?_, ?_, ?_, ?_, ?_, ?_⟩
  · rw [insert_nodes_nodes now (insert_nodes now s batch pf fl) batch pf fl,
      insert_nodes_nodes now s batch pf fl]
    exact upsertAll_idem _ _ _
  · rw [insert_nodes_files now (insert_nodes now s batch pf fl) batch pf fl,
      insert_nodes_files now s batch pf fl]
    exact upsertAll_idem _ _ _
  · rw [insert_nodes_parentage now (insert_nodes now s batch pf fl) batch pf fl,
      insert_nodes_parentage now s batch pf fl]
    cases pf
    · rw [if_neg (by simp), if_neg (by simp)]
      exact ins_edges_noop _ _ (ins_edges_mem _ _)
    · rw [if_pos rfl, if_pos rfl, del_ins_replay]
  · rw [insert_nodes_properties now (insert_nodes now s batch pf fl) batch pf fl,
      insert_nodes_properties now s batch pf fl]
    exact upsertAll_idem _ _ _
  · rw [insert_nodes_pathToNodeId now (insert_nodes now s batch pf fl) batch pf fl,
      insert_nodes_pathToNodeId now s batch pf fl]
    cases fl <;> simp
  · intro k
    rw [insert_nodes_nodeIdToNode now (insert_nodes now s batch pf fl) batch pf fl,
      dictGet_applyCache]
    cases h : cacheEffect ((classify batch).2.1.map (mkFolderNode now) ++
        (classify batch).1.map (mkFileNode now)) k with
    | none => simp
    | some r =>
      rw [insert_nodes_nodeIdToNode now s batch pf fl, dictGet_applyCache, h]
      simp

/-! The child's-eye view of the edge loop, for the partial-parentage
replacement property. -/

/-- An edge with child `c` is in the table exactly when its parent shows
in the child's filtered parent list. -/
theorem edge_mem_iff_parent_mem (t : List (String × String)) (p c : String) :
    (p, c) ∈ t ↔ p ∈ (t.filter (fun e => decide (e.2 = c))).map Prod.fst := by
  constructor
  · intro h
    exact List.mem_map.mpr ⟨(p, c), List.mem_filter.mpr ⟨h, by simp⟩, rfl⟩
  · intro h
    obtain ⟨e, he, hfst⟩ := List.mem_map.mp h
    have h2 := List.mem_filter.mp he
    have hc : e.2 = c := by simpa using h2.2
    have : e = (p, c) := by
      obtain ⟨e1, e2⟩ := e
      simp only at hfst hc
      rw [hfst, hc]
    rw [← this]
    exact h2.1

/-- Inserting one node's declared parents extends the child's filtered
parent list by first-occurrence deduplication. -/
theorem parents_fold_child_view (ps : List String) (c : String) (t : List (String × String)) :
    ((ps.foldl (fun t p => if (p, c) ∈ t then t else t ++ [(p, c)]) t).filter
        (fun e => decide (e.2 = c))).map Prod.fst
      = dedupFrom ((t.filter (fun e => decide (e.2 = c))).map Prod.fst) ps := by
  induction ps generalizing t with
  | nil => rfl
  | cons p rest ih =>
    simp only [List.foldl_cons]
    show _ = dedupFrom _ (p :: rest)
    have hstep : dedupFrom ((t.filter (fun e => decide (e.2 = c))).map Prod.fst) (p :: rest)
        = dedupFrom (if p ∈ (t.filter (fun e => decide (e.2 = c))).map Prod.fst
            then (t.filter (fun e => decide (e.2 = c))).map Prod.fst
            else (t.filter (fun e => decide (e.2 = c))).map Prod.fst ++ [p]) rest := rfl
    rw [hstep]
    by_cases hmem : (p, c) ∈ t
    · rw [if_pos hmem, if_pos ((edge_mem_iff_parent_mem t p c).mp hmem)]
      exact ih t
    · rw [if_neg hmem, if_neg (fun hin => hmem ((edge_mem_iff_parent_mem t p c).mpr hin))]
      rw [ih (t ++ [(p, c)])]
      congr 1
      rw [List.filter_append, List.map_append]
      congr 1
      simp

/-- Inserting the parents of a node with a different id leaves the
child's filtered edge list unchanged. -/
theorem parents_fold_other_child (ps : List String) (d c : String) (hd : d ≠ c)
    (t : List (String × String)) :
    (ps.foldl (fun t p => if (p, d) ∈ t then t else t ++ [(p, d)]) t).filter
        (fun e => decide (e.2 = c))
      = t.filter (fun e => decide (e.2 = c)) := by
  induction ps generalizing t with
  | nil => rfl
  | cons p rest ih =>
    simp only [List.foldl_cons]
    rw [ih]
    split
    · rfl
    · rw [List.filter_append]
      simp [hd]

/-- A batch containing no node with id `c` leaves the child `c`'s filtered
edge list unchanged. -/
theorem ins_edges_other_children (ns : List RawNode) (c : String)
    (h : ∀ m ∈ ns, m.id ≠ c) (t : List (String × String)) :
    (ins_edges t ns).filter (fun e => decide (e.2 = c))
      = t.filter (fun e => decide (e.2 = c)) := by
  induction ns generalizing t with
  | nil => rfl
  | cons m rest ih =>
    simp only [ins_edges, List.foldl_cons] at ih ⊢
    rw [ih (fun x hx => h x (by simp [hx]))]
    exact parents_fold_other_child m.parents m.id c (h m (by simp)) t

/-- The child's filtered parent list after the edge loop, when the batch
declares the child exactly once. -/
theorem ins_edges_cons (m : RawNode) (rest : List RawNode) (t : List (String × String)) :
    ins_edges t (m :: rest) =
      ins_edges (m.parents.foldl (fun t p => if (p, m.id) ∈ t then t else t ++ [(p, m.id)]) t)
        rest := rfl

theorem ins_edges_child_view (ns : List RawNode) (n : RawNode) (c : String) (hc : n.id = c)
    (h : ns.filter (fun m => decide (m.id = c)) = [n]) (t : List (String × String)) :
    ((ins_edges t ns).filter (fun e => decide (e.2 = c))).map Prod.fst
      = dedupFrom ((t.filter (fun e => decide (e.2 = c))).map Prod.fst) n.parents := by
  induction ns generalizing t with
  | nil => simp at h
  | cons m rest ih =>
    rw [ins_edges_cons]
    by_cases hm : m.id = c
    · have hfil : m :: rest.filter (fun m => decide (m.id = c)) = [n] := by
        simpa [List.filter_cons, hm] using h
      have hmn : m = n := (List.cons.injEq _ _ _ _).mp hfil |>.1
      have hrest : rest.filter (fun m => decide (m.id = c)) = [] :=
        (List.cons.injEq _ _ _ _).mp hfil |>.2
      have hnone : ∀ x ∈ rest, x.id ≠ c := by
        intro x hx hxc
        have : x ∈ rest.filter (fun m => decide (m.id = c)) :=
          List.mem_filter.mpr ⟨hx, by simp [hxc]⟩
        rw [hrest] at this
        cases this
      rw [ins_edges_other_children rest c hnone]
      subst hmn
      rw [hm] at *
      exact parents_fold_child_view m.parents c t
    · have hfil : rest.filter (fun m => decide (m.id = c)) = [n] := by
        simpa [List.filter_cons, hm] using h
      rw [ih hfil]
      rw [parents_fold_other_child m.parents m.id c hm t]

/-- First-occurrence deduplication preserves distinctness. -/
theorem dedupFrom_nodup (l : List String) (acc : List String) (h : acc.Nodup) :
    (dedupFrom acc l).Nodup := by
  induction l generalizing acc with
  | nil => exact h
  | cons p rest ih =>
    show (dedupFrom (if p ∈ acc then acc else acc ++ [p]) rest).Nodup
    by_cases hp : p ∈ acc
    · rw [if_pos hp]; exact ih acc h
    · rw [if_neg hp]
      refine ih _ ?_
      rw [(List.perm_append_singleton p acc).nodup_iff]
      exact List.nodup_cons.mpr ⟨hp, h⟩

theorem dedupKeepFirst_nodup (l : List String) : (dedupKeepFirst l).Nodup :=
  dedupFrom_nodup l [] List.nodup_nil

/-- Claim C4: with `partial` set, `insert_parentage` replaces the child's
parent set by exactly its declared parents (first occurrences, no
duplicate rows), for a child declared exactly once in the batch. -/
theorem partial_parentage_replaces_child_edges (s : CacheState) (batch : List RawNode)
    (n : RawNode) (h : batch.filter (fun m => decide (m.id = n.id)) = [n]) :
    (((insert_parentage s batch true).parentage.filter
        (fun e => decide (e.2 = n.id))).map Prod.fst = dedupKeepFirst n.parents) ∧
    ((insert_parentage s batch true).parentage.filter
        (fun e => decide (e.2 = n.id))).Nodup := by
  have hn_mem : n ∈ batch := by
    have : n ∈ batch.filter (fun m => decide (m.id = n.id)) := by rw [h]; simp
    exact (List.mem_filter.mp this).1
  have hdel : ((del_child_edges s.parentage batch).filter
      (fun e => decide (e.2 = n.id))) = [] := by
    rw [del_child_edges_char]
    apply filter_none_keep
    intro e he
    have h2 := List.mem_filter.mp he
    have : ¬ (e.2 ∈ batch.map RawNode.id) := by simpa using h2.2
    simp only [decide_eq_false_iff_not]
    intro hc
    exact this (List.mem_map.mpr ⟨n, hn_mem, hc.symm⟩)
  have hmain := ins_edges_child_view batch n n.id rfl h (del_child_edges s.parentage batch)
  rw [insert_parentage_char]
  have hproj : ({ s with
      parentage := ins_edges (if true = true then del_child_edges s.parentage batch
        else s.parentage) batch
      infos := if batch = [] then s.infos
        else s.infos ++ ["Parented " ++ toString batch.length ++ " node(s)."] } :
      CacheState).parentage
      = ins_edges (del_child_edges s.parentage batch) batch := by
    simp
  rw [hproj]
  constructor
  · rw [hmain, hdel]
    rfl
  · have h1 : (((ins_edges (del_child_edges s.parentage batch) batch).filter
        (fun e => decide (e.2 = n.id))).map Prod.fst).Nodup := by
      rw [hmain, hdel]
      exact dedupKeepFirst_nodup n.parents
    exact h1.of_map

/-! Purge completeness. -/

theorem referencesId_slice_kill (s : CacheState) (sl : List String) (i : String)
    (h : i ∈ sl) : ¬ referencesId (remove_purged_slice s sl) i := by
  intro href
  rcases href with ⟨r, hr, hid⟩ | ⟨r, hr, hid⟩ | ⟨r, hr, hid⟩ | ⟨e, he, hid⟩ | ⟨r, hr, hid⟩
    | ⟨e, he, hid⟩
  · have h2 := (List.mem_filter.mp hr).2
    simp only [Bool.not_eq_true', decide_eq_false_iff_not] at h2
    exact h2 (hid ▸ h)
  · have h2 := (List.mem_filter.mp hr).2
    simp only [Bool.not_eq_true', decide_eq_false_iff_not] at h2
    exact h2 (hid ▸ h)
  · have h2 := (List.mem_filter.mp hr).2
    simp only [Bool.not_eq_true', decide_eq_false_iff_not] at h2
    exact h2 (hid ▸ h)
  · have h2 := List.mem_filter.mp he
    have hc := h2.2
    have h3 := List.mem_filter.mp h2.1
    have hp := h3.2
    simp only [Bool.not_eq_true', decide_eq_false_iff_not] at hc hp
    rcases hid with hid | hid
    · exact hp (hid ▸ h)
    · exact hc (hid ▸ h)
  · have h2 := (List.mem_filter.mp hr).2
    simp only [Bool.not_eq_true', decide_eq_false_iff_not] at h2
    exact h2 (hid ▸ h)
  · have h2 := (List.mem_filter.mp he).2
    simp only [Bool.not_eq_true', decide_eq_false_iff_not] at h2
    exact h2 (hid ▸ h)

theorem referencesId_slice_pres (s : CacheState) (sl : List String) (i : String)
    (h : ¬ referencesId s i) : ¬ referencesId (remove_purged_slice s sl) i := by
  intro href
  apply h
  rcases href with ⟨r, hr, hid⟩ | ⟨r, hr, hid⟩ | ⟨r, hr, hid⟩ | ⟨e, he, hid⟩ | ⟨r, hr, hid⟩
    | ⟨e, he, hid⟩
  · exact Or.inl ⟨r, (List.mem_filter.mp hr).1, hid⟩
  · exact Or.inr (Or.inl ⟨r, (List.mem_filter.mp hr).1, hid⟩)
  · exact Or.inr (Or.inr (Or.inl ⟨r, (List.mem_filter.mp hr).1, hid⟩))
  · refine Or.inr (Or.inr (Or.inr (Or.inl ⟨e, ?_, hid⟩)))
    exact (List.mem_filter.mp (List.mem_filter.mp he).1).1
  · exact Or.inr (Or.inr (Or.inr (Or.inr (Or.inl ⟨r, (List.mem_filter.mp hr).1, hid⟩))))
  · exact Or.inr (Or.inr (Or.inr (Or.inr (Or.inr ⟨e, (List.mem_filter.mp he).1, hid⟩))))

theorem referencesId_fold_pres (sls : List (List String)) (s : CacheState) (i : String)
    (h : ¬ referencesId s i) :
    ¬ referencesId (sls.foldl remove_purged_slice s) i := by
  induction sls generalizing s with
  | nil => exact h
  | cons sl rest ih => exact ih _ (referencesId_slice_pres s sl i h)

theorem referencesId_fold_kill (sls : List (List String)) (s : CacheState) (i : String)
    (h : ∃ sl ∈ sls, i ∈ sl) :
    ¬ referencesId (sls.foldl remove_purged_slice s) i := by
  induction sls generalizing s with
  | nil => obtain ⟨sl, hsl, _⟩ := h; cases hsl
  | cons sl rest ih =>
    simp only [List.foldl_cons]
    obtain ⟨sl', hsl', hi⟩ := h
    rcases List.mem_cons.mp hsl' with rfl | hsl''
    · exact referencesId_fold_pres rest _ i (referencesId_slice_kill s sl' i hi)
    · exact ih _ ⟨sl', hsl'', hi⟩

/-- Claim C5: after `remove_purged`, no persisted row references any
purged id, and the chunking (slices of 100) loses no id. -/
theorem remove_purged_complete (s : CacheState) (purged : List String) (i : String)
    (h : i ∈ purged) :
    ¬ referencesId (remove_purged s purged) i ∧ (gen_slice purged 100).flatten = purged := by
  have hjoin : (gen_slice purged 100).flatten = purged := gen_slice_join purged 100 (by omega)
  refine ⟨?_, hjoin⟩
  have hne : purged ≠ [] := by rintro rfl; cases h
  unfold remove_purged
  rw [if_neg hne]
  have hmem : ∃ sl ∈ gen_slice purged 100, i ∈ sl := by
    rw [← hjoin] at h
    exact List.mem_flatten.mp h
  have hkill := referencesId_fold_kill (gen_slice purged 100) s i hmem
  intro href
  apply hkill
  exact href

/-! The availability invariant of the id→Node cache. -/

theorem cacheEffect_last_nonavail (pre post : List Node) (n : Node) (k : String)
    (hid : n.id = k) (hav : n.is_available = false)
    (hpost : ∀ m ∈ post, m.id ≠ k) :
    cacheEffect (pre ++ n :: post) k = some none := by
  have h0 : cacheEffect post k = none := cacheEffect_none_of_no_id post k hpost
  have h1 : cacheEffect (n :: post) k = some none := by
    rw [cacheEffect_cons, h0, if_pos hid]
    simp [hav]
  exact cacheEffect_append_some pre (n :: post) k none h1

/-- Claim C2, amended: after `insert_folders` or `insert_files`, a
processed node whose status is not `AVAILABLE` and whose id is not
processed again later in the same batch does not appear in the id→Node
map. -/
theorem nonavailable_last_occurrence_not_cached (now : Nat) (s : CacheState)
    (pre post : List RawNode) (f : RawNode) (hst : f.status ≠ "AVAILABLE")
    (hpost : post.all (fun g => !(decide (g.id = f.id))) = true) :
    dictGet (insert_folders now s (pre ++ f :: post)).nodeIdToNode f.id = none ∧
    dictGet (insert_files now s (pre ++ f :: post)).nodeIdToNode f.id = none := by
  have hpost' : ∀ g ∈ post, g.id ≠ f.id := by
    intro g hg
    have := List.all_eq_true.mp hpost g hg
    simpa using this
  constructor
  · rw [insert_folders_char]
    show dictGet (applyCache s.nodeIdToNode ((pre ++ f :: post).map (mkFolderNode now)))
      f.id = none
    rw [dictGet_applyCache, List.map_append, List.map_cons]
    rw [cacheEffect_last_nonavail (pre.map (mkFolderNode now)) (post.map (mkFolderNode now))
      (mkFolderNode now f) f.id rfl (by simp [Node.is_available, mkFolderNode, hst]) ?_]
    · rfl
    · intro m hm
      obtain ⟨g, hg, rfl⟩ := List.mem_map.mp hm
      exact hpost' g hg
  · rw [insert_files_char]
    show dictGet (applyCache s.nodeIdToNode ((pre ++ f :: post).map (mkFileNode now)))
      f.id = none
    rw [dictGet_applyCache, List.map_append, List.map_cons]
    rw [cacheEffect_last_nonavail (pre.map (mkFileNode now)) (post.map (mkFileNode now))
      (mkFileNode now f) f.id rfl (by simp [Node.is_available, mkFileNode, hst]) ?_]
    · rfl
    · intro m hm
      obtain ⟨g, hg, rfl⟩ := List.mem_map.mp hm
      exact hpost' g hg

/-- Claim C9: a file of the batch whose status is not `AVAILABLE` has no
content row after `insert_files` returns. -/
theorem nonavailable_file_clears_content (now : Nat) (s : CacheState) (fs : List RawNode)
    (f : RawNode) (hmem : f ∈ fs) (hst : f.status ≠ "AVAILABLE") :
    (insert_files now s fs).content.all (fun r => !(decide (r.id = f.id))) = true := by
  rw [insert_files_char]
  show (s.content.filter (contentKeep fs)).all (fun r => !(decide (r.id = f.id))) = true
  rw [List.all_eq_true]
  intro r hr
  have hk := (List.mem_filter.mp hr).2
  have := List.all_eq_true.mp hk f hmem
  simp only [Bool.or_eq_true, beq_iff_eq] at this
  rcases this with hbad | hne
  · exact absurd hbad hst
  · exact hne

/-- Claim C3, amended: with `flush_resolve_cache` set, `insert_nodes`
clears exactly the path→id map before processing the batch; the id→Node
map is not flushed. -/
theorem flush_clears_only_path_cache (now : Nat) (s : CacheState) (batch : List RawNode)
    (pf : Bool) :
    insert_nodes now s batch pf true
      = insert_nodes now { s with pathToNodeId := [] } batch pf false := by
  unfold insert_nodes
  simp only []
  rfl

/-- Claim C10: calling `remove_purged`, `insert_folders`, `insert_files`
or `insert_parentage` with an empty list returns the state unchanged. -/
theorem empty_batch_noop (now : Nat) (s : CacheState) (pf : Bool) :
    remove_purged s [] = s ∧ insert_folders now s [] = s ∧
    insert_files now s [] = s ∧ insert_parentage s [] pf = s := by
  refine ⟨?_, ?_, ?_, ?_⟩ <;> simp [remove_purged, insert_folders, insert_files,
    insert_parentage]

/-- Claim C6: on a genuine version-0 store, `init` applies the four
migration steps in ascending order, each advancing the stamp by exactly
one, and the final stamp is the compiled-in current version 4. -/
theorem init_migrates_v0_to_v4 (s : SchemaState) (hver : s.userVersion = 0)
    (htab : s.hasTables = true) (hupd : s.nodesHasUpdated = false)
    (hdesc : s.nodesHasDescription = false) (hfv : s.filesHasVersion = false) :
    Except.map SchemaState.userVersion (_0_to_1 s) = Except.ok 1 ∧
    Except.map SchemaState.userVersion ((_0_to_1 s).bind _1_to_2) = Except.ok 2 ∧
    Except.map SchemaState.userVersion (((_0_to_1 s).bind _1_to_2).bind _2_to_3)
      = Except.ok 3 ∧
    Except.map SchemaState.userVersion ((((_0_to_1 s).bind _1_to_2).bind _2_to_3).bind _3_to_4)
      = Except.ok 4 ∧
    schema_init s = (((_0_to_1 s).bind _1_to_2).bind _2_to_3).bind _3_to_4 := by
  refine ⟨?_, ?_, ?_, ?_, ?_⟩ <;>
    simp [schema_init, create_tables, db_schema_ver, _migrate, all_migrations,
      _0_to_1, _1_to_2, _2_to_3, _3_to_4, Except.bind, Except.map,
      hver, htab, hupd, hdesc, hfv]

/-- Claim C7, amended: steps `_1_to_2` and `_2_to_3` are safe against any
store (in particular one already at their target structure) and leave the
target structure present; steps `_0_to_1` and `_3_to_4` fail with a
duplicate-column error when the column they add is already present. -/
theorem migration_rerun_partial_safety (s : SchemaState) :
    (_1_to_2 s
      = Except.ok { s with hasFoldersTable := false, ixNodesNames := true, userVersion := 2 }) ∧
    (_2_to_3 s
      = Except.ok { s with hasPropertiesTable := true, ixParentageChild := true, ixParentageParent := true, userVersion := 3 }) ∧
    (s.nodesHasUpdated = true → _0_to_1 s = Except.error "duplicate column name: updated") ∧
    (s.filesHasVersion = true → _3_to_4 s = Except.error "duplicate column name: version") := by
  refine ⟨rfl, rfl, ?_, ?_⟩
  · intro h
    simp [_0_to_1, h]
  · intro h
    simp [_3_to_4, h]

/-! Classification decomposition and the unknown-kind path. -/

theorem classify_append (xs ys : List RawNode) :
    classify (xs ++ ys) = ((classify xs).1 ++ (classify ys).1,
      (classify xs).2.1 ++ (classify ys).2.1, (classify xs).2.2 ++ (classify ys).2.2) := by
  induction xs with
  | nil => simp [classify]
  | cons node rest ih =>
    by_cases h1 : node.status == "PENDING"
    · simp [classify, h1, ih]
    · by_cases h2 : node.kind == "FILE"
      · by_cases h3 : nameEmpty node
        · simp [classify, h1, h2, h3, ih]
        · simp [classify, h1, h2, h3, ih]
      · by_cases h4 : node.kind == "FOLDER"
        · by_cases h5 : nameEmpty node && !node.isRoot
          · simp [classify, h1, h2, h4, h5, ih]
          · simp [classify, h1, h2, h4, h5, ih]
        · by_cases h6 : node.kind == "ASSET"
          · simp [classify, h1, h2, h4, h6, ih]
          · simp [classify, h1, h2, h4, h6, ih]

theorem classify_bad_cons (bad : RawNode) (post : List RawNode)
    (h1 : bad.kind ≠ "FILE") (h2 : bad.kind ≠ "FOLDER") :
    classify (bad :: post) = ((classify post).1, (classify post).2.1,
      (if bad.status = "PENDING" ∨ bad.kind = "ASSET" then [] else [unknownKindWarning bad])
        ++ (classify post).2.2) := by
  have hf : (bad.kind == "FILE") = false := by simpa using h1
  have hd : (bad.kind == "FOLDER") = false := by simpa using h2
  by_cases hp : bad.status == "PENDING"
  · have hp' : bad.status = "PENDING" := by simpa using hp
    simp [classify, hp, hp']
  · have hp' : ¬ bad.status = "PENDING" := by simpa using hp
    by_cases ha : bad.kind == "ASSET"
    · have ha' : bad.kind = "ASSET" := by simpa using ha
      simp [classify, hp, hf, hd, ha, hp', ha']
    · have ha' : ¬ bad.kind = "ASSET" := by simpa using ha
      simp [classify, hp, hf, hd, ha, hp', ha']

/-! The warnings stream is inert: each insert operation carries it
through unchanged. -/

theorem insert_folders_frame (now : Nat) (x : CacheState) (w : List String)
    (L : List RawNode) :
    insert_folders now { x with warnings := w } L
      = { insert_folders now x L with warnings := w } := by
  rw [insert_folders_char, insert_folders_char]

theorem insert_files_frame (now : Nat) (x : CacheState) (w : List String)
    (L : List RawNode) :
    insert_files now { x with warnings := w } L
      = { insert_files now x L with warnings := w } := by
  rw [insert_files_char, insert_files_char]

theorem insert_parentage_frame (x : CacheState) (w : List String) (ns : List RawNode)
    (pf : Bool) :
    insert_parentage { x with warnings := w } ns pf
      = { insert_parentage x ns pf with warnings := w } := by
  rw [insert_parentage_char, insert_parentage_char]

theorem insert_properties_frame (x : CacheState) (w : List String) (ns : List RawNode) :
    insert_properties { x with warnings := w } ns
      = { insert_properties x ns with warnings := w } := by
  rw [insert_properties_char, insert_properties_char]

theorem insert_nodes_content (now : Nat) (s : CacheState) (batch : List RawNode)
    (pf fl : Bool) :
    (insert_nodes now s batch pf fl).content
      = s.content.filter (contentKeep (classify batch).1) := by
  unfold insert_nodes
  simp only []
  rw [insert_folders_char, insert_files_char, insert_parentage_char, insert_properties_char]
  cases fl <;> simp

theorem insert_nodes_labels (now : Nat) (s : CacheState) (batch : List RawNode)
    (pf fl : Bool) :
    (insert_nodes now s batch pf fl).labels = s.labels := by
  unfold insert_nodes
  simp only []
  rw [insert_folders_char, insert_files_char, insert_parentage_char, insert_properties_char]
  cases fl <;> simp

theorem insert_nodes_warnings (now : Nat) (s : CacheState) (batch : List RawNode)
    (pf fl : Bool) :
    (insert_nodes now s batch pf fl).warnings = s.warnings ++ (classify batch).2.2 := by
  unfold insert_nodes
  simp only []
  rw [insert_folders_char, insert_files_char, insert_parentage_char, insert_properties_char]
  cases fl <;> simp

theorem insert_nodes_infos (now : Nat) (s : CacheState) (batch : List RawNode)
    (pf fl : Bool) :
    (insert_nodes now s batch pf fl).infos =
      (let D := (classify batch).2.1
       let F := (classify batch).1
       let i1 := if D = [] then s.infos
         else s.infos ++ ["Inserted/updated " ++ toString D.length ++ " folder(s)."]
       let i2 := if F = [] then i1
         else i1 ++ ["Inserted/updated " ++ toString F.length ++ " file(s)."]
       let i3 := if (F ++ D) = [] then i2
         else i2 ++ ["Parented " ++ toString (F ++ D).length ++ " node(s)."]
       if (F ++ D) = [] then i3
         else i3 ++ ["Applied properties to " ++ toString (F ++ D).length ++ " node(s)."]) := by
  unfold insert_nodes
  simp only []
  rw [insert_folders_char, insert_files_char, insert_parentage_char, insert_properties_char]
  cases fl <;> simp

/-- Claim C8, amended: a raw node of unknown kind is dropped (no persisted
table, cache map or info stream differs from processing the batch without
it) and the rest of the batch is processed; the warning is emitted unless
the node is `PENDING` (dropped silently by the status check) or of kind
`ASSET` (dropped silently by design). -/
theorem unknown_kind_dropped (now : Nat) (s : CacheState) (pre post : List RawNode)
    (bad : RawNode) (pf fl : Bool) (h1 : bad.kind ≠ "FILE") (h2 : bad.kind ≠ "FOLDER") :
    (insert_nodes now s (pre ++ bad :: post) pf fl).nodes
        = (insert_nodes now s (pre ++ post) pf fl).nodes ∧
    (insert_nodes now s (pre ++ bad :: post) pf fl).files
        = (insert_nodes now s (pre ++ post) pf fl).files ∧
    (insert_nodes now s (pre ++ bad :: post) pf fl).parentage
        = (insert_nodes now s (pre ++ post) pf fl).parentage ∧
    (insert_nodes now s (pre ++ bad :: post) pf fl).properties
        = (insert_nodes now s (pre ++ post) pf fl).properties ∧
    (insert_nodes now s (pre ++ bad :: post) pf fl).content
        = (insert_nodes now s (pre ++ post) pf fl).content ∧
    (insert_nodes now s (pre ++ bad :: post) pf fl).labels
        = (insert_nodes now s (pre ++ post) pf fl).labels ∧
    (insert_nodes now s (pre ++ bad :: post) pf fl).pathToNodeId
        = (insert_nodes now s (pre ++ post) pf fl).pathToNodeId ∧
    (insert_nodes now s (pre ++ bad :: post) pf fl).nodeIdToNode
        = (insert_nodes now s (pre ++ post) pf fl).nodeIdToNode ∧
    (insert_nodes now s (pre ++ bad :: post) pf fl).infos
        = (insert_nodes now s (pre ++ post) pf fl).infos ∧
    (insert_nodes now s (pre ++ bad :: post) pf fl).warnings
        = s.warnings ++ (classify pre).2.2
            ++ (if bad.status = "PENDING" ∨ bad.kind = "ASSET" then []
                else [unknownKindWarning bad])
            ++ (classify post).2.2 := by
  have e1 : (classify (pre ++ bad :: post)).1 = (classify (pre ++ post)).1 := by
    rw [classify_append pre (bad :: post), classify_bad_cons bad post h1 h2,
      classify_append pre post]
  have e2 : (classify (pre ++ bad :: post)).2.1 = (classify (pre ++ post)).2.1 := by
    rw [classify_append pre (bad :: post), classify_bad_cons bad post h1 h2,
      classify_append pre post]
  have e3 : (classify (pre ++ bad :: post)).2.2 = (classify pre).2.2
      ++ ((if bad.status = "PENDING" ∨ bad.kind = "ASSET" then []
          else [unknownKindWarning bad]) ++ (classify post).2.2) := by
    rw [classify_append pre (bad :: post), classify_bad_cons bad post h1 h2]
  refine ⟨?_, ?_, ?_, ?_, ?_, ?_, ?_, ?_, ?_, ?_⟩
  · rw [insert_nodes_nodes, insert_nodes_nodes, e1, e2]
  · rw [insert_nodes_files, insert_nodes_files, e1]
  · rw [insert_nodes_parentage, insert_nodes_parentage, e1, e2]
  · rw [insert_nodes_properties, insert_nodes_properties, e1, e2]
  · rw [insert_nodes_content, insert_nodes_content, e1]
  · rw [insert_nodes_labels, insert_nodes_labels]
  · rw [insert_nodes_pathToNodeId, insert_nodes_pathToNodeId]
  · rw [insert_nodes_nodeIdToNode, insert_nodes_nodeIdToNode, e1, e2]
  · rw [insert_nodes_infos, insert_nodes_infos, e1, e2]
  · rw [insert_nodes_warnings, e3]
    simp [List.append_assoc]

/-! Closed instances: counterexamples and instance checks. -/

/-- Claim C1, counterexample as stated: re-applying the identical batch at
a later clock reading changes the `updated` column of the nodes row, so
the persisted rows are not identical to a single application. -/
theorem insert_nodes_not_idem_distinct_clock :
    (insert_nodes 1 (insert_nodes 0 emptyState [sampleFolder "X" "AVAILABLE"] true false)
        [sampleFolder "X" "AVAILABLE"] true false).nodes
      ≠ (insert_nodes 0 emptyState [sampleFolder "X" "AVAILABLE"] true false).nodes := by
  decide

/-- Claim C2, counterexample as stated: a `TRASH` description of `X`
followed in the same batch by an `AVAILABLE` description of `X` leaves `X`
in the id→Node map after the insert completes. -/
theorem nonavailable_node_recached_by_later_duplicate :
    (sampleFolder "X" "TRASH").status ≠ "AVAILABLE" ∧
    dictGet (insert_folders 0 emptyState
        [sampleFolder "X" "TRASH", sampleFolder "X" "AVAILABLE"]).nodeIdToNode "X"
      = some (mkFolderNode 0 (sampleFolder "X" "AVAILABLE")) := ⟨by decide, by decide⟩

/-- Claim C2, instance: a non-available node whose id does not recur later
in the batch ends up absent from the id→Node map. -/
theorem nonavailable_last_occurrence_not_cached_witness :
    (sampleFolder "X" "TRASH").status ≠ "AVAILABLE" ∧
    ([sampleFolder "Y" "AVAILABLE"].all
      (fun g => !(decide (g.id = (sampleFolder "X" "TRASH").id))) = true) ∧
    dictGet (insert_folders 7 c3state
      ([] ++ sampleFolder "X" "TRASH" :: [sampleFolder "Y" "AVAILABLE"])).nodeIdToNode
      (sampleFolder "X" "TRASH").id = none ∧
    dictGet (insert_files 7 c3state
      ([] ++ sampleFolder "X" "TRASH" :: [sampleFolder "Y" "AVAILABLE"])).nodeIdToNode
      (sampleFolder "X" "TRASH").id = none := by
  refine ⟨by decide, by decide, ?_, ?_⟩
  · exact (nonavailable_last_occurrence_not_cached 7 c3state [] [sampleFolder "Y" "AVAILABLE"]
      (sampleFolder "X" "TRASH") (by decide) (by decide)).1
  · exact (nonavailable_last_occurrence_not_cached 7 c3state [] [sampleFolder "Y" "AVAILABLE"]
      (sampleFolder "X" "TRASH") (by decide) (by decide)).2

/-- Claim C3, counterexample as stated: a flushing `insert_nodes` call
leaves the id→Node map untouched (here still holding its entry), so it
does not clear both Resolve Cache maps. -/
theorem flush_leaves_node_id_cache :
    (insert_nodes 0 c3state [] true true).pathToNodeId = [] ∧
    (insert_nodes 0 c3state [] true true).nodeIdToNode = c3state.nodeIdToNode ∧
    c3state.nodeIdToNode ≠ [] := ⟨by decide, by decide, by decide⟩

/-- Claim C4, instance: child `X` with prior parents `A`, `B` re-declared
with parent set `C` ends up with exactly the parent `C`. -/
theorem partial_parentage_replaces_child_edges_witness :
    ([c4child].filter (fun m => decide (m.id = c4child.id)) = [c4child]) ∧
    ((((insert_parentage c4state [c4child] true).parentage.filter
        (fun e => decide (e.2 = c4child.id))).map Prod.fst = dedupKeepFirst c4child.parents) ∧
      ((insert_parentage c4state [c4child] true).parentage.filter
        (fun e => decide (e.2 = c4child.id))).Nodup) :=
  ⟨by decide, partial_parentage_replaces_child_edges c4state [c4child] c4child (by decide)⟩

/-- Claim C5, instance: purging 250 ids (three chunks) removes every
reference to a purged id. -/
theorem remove_purged_complete_witness :
    ("id249" ∈ purged250) ∧
    (¬ referencesId (remove_purged c5state purged250) "id249" ∧
      (gen_slice purged250 100).flatten = purged250) :=
  ⟨by decide, remove_purged_complete c5state purged250 "id249" (by decide)⟩

/-- Claim C6, instance: the concrete version-0 store migrates 0→1→2→3→4
under `init` and ends stamped 4. -/
theorem init_migrates_v0_to_v4_witness :
    (v0Schema.userVersion = 0 ∧ v0Schema.hasTables = true ∧
      v0Schema.nodesHasUpdated = false ∧ v0Schema.nodesHasDescription = false ∧
      v0Schema.filesHasVersion = false) ∧
    (Except.map SchemaState.userVersion (_0_to_1 v0Schema) = Except.ok 1 ∧
      Except.map SchemaState.userVersion ((_0_to_1 v0Schema).bind _1_to_2) = Except.ok 2 ∧
      Except.map SchemaState.userVersion (((_0_to_1 v0Schema).bind _1_to_2).bind _2_to_3)
        = Except.ok 3 ∧
      Except.map SchemaState.userVersion
          ((((_0_to_1 v0Schema).bind _1_to_2).bind _2_to_3).bind _3_to_4) = Except.ok 4 ∧
      schema_init v0Schema = (((_0_to_1 v0Schema).bind _1_to_2).bind _2_to_3).bind _3_to_4) :=
  ⟨⟨rfl, rfl, rfl, rfl, rfl⟩, init_migrates_v0_to_v4 v0Schema rfl rfl rfl rfl rfl⟩

/-- Claim C7, counterexample as stated: the fully migrated store already
has the target structure of step 0→1, yet re-running the step fails on its
unguarded `ALTER TABLE nodes ADD updated`. -/
theorem rerun_0_to_1_fails :
    freshSchema.nodesHasUpdated = true ∧ freshSchema.nodesHasDescription = true ∧
    _0_to_1 freshSchema = Except.error "duplicate column name: updated" :=
  ⟨rfl, rfl, rfl⟩

/-- Claim C7, instance: on the fully migrated store the guarded steps
succeed to their target state and the unguarded steps fail. -/
theorem migration_rerun_partial_safety_witness :
    (_1_to_2 freshSchema
      = Except.ok { freshSchema with hasFoldersTable := false, ixNodesNames := true, userVersion := 2 }) ∧
    (_2_to_3 freshSchema
      = Except.ok { freshSchema with hasPropertiesTable := true, ixParentageChild := true, ixParentageParent := true, userVersion := 3 }) ∧
    freshSchema.nodesHasUpdated = true ∧
    _0_to_1 freshSchema = Except.error "duplicate column name: updated" ∧
    freshSchema.filesHasVersion = true ∧
    _3_to_4 freshSchema = Except.error "duplicate column name: version" := by
  obtain ⟨ha, hb, hc, hd⟩ := migration_rerun_partial_safety freshSchema
  exact ⟨ha, hb, rfl, hc rfl, rfl, hd rfl⟩

/-- Claim C8, counterexample as stated: an `ASSET`-kind node is neither a
file nor a folder, is dropped (no nodes row), and no warning is logged. -/
theorem asset_kind_dropped_silently :
    sampleAsset.kind ≠ "FILE" ∧ sampleAsset.kind ≠ "FOLDER" ∧
    (insert_nodes 0 emptyState [sampleAsset] true false).warnings = [] ∧
    (insert_nodes 0 emptyState [sampleAsset] true false).nodes = [] :=
  ⟨by decide, by decide, by decide, by decide⟩

/-- Claim C8, instance: the warnings after ingesting a batch holding one
`ASSET` node are those of the batch without it (no warning for the
asset). -/
theorem unknown_kind_dropped_witness :
    sampleAsset.kind ≠ "FILE" ∧ sampleAsset.kind ≠ "FOLDER" ∧
    (insert_nodes 0 emptyState ([] ++ sampleAsset :: []) true false).warnings
      = emptyState.warnings ++ (classify []).2.2
        ++ (if sampleAsset.status = "PENDING" ∨ sampleAsset.kind = "ASSET" then []
            else [unknownKindWarning sampleAsset])
        ++ (classify []).2.2 :=
  ⟨by decide, by decide,
    (unknown_kind_dropped 0 emptyState [] [] sampleAsset true false (by decide)
      (by decide)).2.2.2.2.2.2.2.2.2⟩

/-- Claim C9, instance: inserting a `TRASH` file description for `id249`
removes its pre-existing content row. -/
theorem nonavailable_file_clears_content_witness :
    (sampleFile "id249" "TRASH" [] ∈ [sampleFile "id249" "TRASH" []]) ∧
    (sampleFile "id249" "TRASH" []).status ≠ "AVAILABLE" ∧
    (insert_files 3 c5state [sampleFile "id249" "TRASH" []]).content.all
      (fun r => !(decide (r.id = (sampleFile "id249" "TRASH" []).id))) = true :=
  ⟨by decide, by decide,
    nonavailable_file_clears_content 3 c5state [sampleFile "id249" "TRASH" []]
      (sampleFile "id249" "TRASH" []) (by decide) (by decide)⟩
